import Mathlib

/-!
# Snake game (`src/snake.c`): shallow embedding of the simulation core

The C program keeps its whole game state in globals and advances it with
`input()` followed by `logic()` once per loop iteration.  The globals become
the fields of `State`; every C function becomes a function on `State`.

* C `int` values are modelled by `Int`.  The functions `fruit_collision`,
  `logic` and `tick` compute over unbounded integers: they describe the
  executions in which no `int` overflows (the coordinates stay within the
  40 x 20 board; `score` grows by 10 per fruit).  The only addition that can
  leave the range of `int` is `score += 10`; `fruit_collision_int` and
  `logic_int` compute it in 32-bit two's complement, as the compiled program
  does, and agree with `fruit_collision` and `logic` while
  `score + 10 <= INT_MAX`.
* The arrays `snakeTailX` / `snakeTailY` are modelled as maps from the index to
  the stored `int`.  The program only touches indices below `snakeTailLen`.
* `rand()` is modelled by a list of samples (each a natural number, as
  `rand()` returns a value in `[0, RAND_MAX]`); a function that calls `rand()`
  consumes samples from the front and returns the rest.  Running out of samples
  (`none`) stands for a `do ... while` loop that has not yet found a free cell.
* `getch()` is modelled by the key code handed to `input`.
-/

namespace Snake

/-- The board height, `#define HEIGHT 20` (line 8). -/
def HEIGHT : Int := 20

/-- The board width, `#define WIDTH 40` (line 9). -/
def WIDTH : Int := 40

/-- The capacity of the tail arrays, `#define MAX_TAIL_LEN 100` (line 10). -/
def MAX_TAIL_LEN : Int := 100

/-- The globals of `snake.c` (lines 13-22). -/
structure State where
  snakeTailX : Nat → Int
  snakeTailY : Nat → Int
  snakeTailLen : Int
  gameover : Bool
  score : Int
  x : Int
  y : Int
  fruitx : Int
  fruity : Int
  direction : Int

/-- The scan `for (k = 0; k < snakeTailLen; k++) if (px == snakeTailX[k] && py == snakeTailY[k])`
used by `generate_fruit` (lines 47-52) and by `logic` (lines 166-171): started at
index `k` with `n` iterations left, it answers whether a scanned segment equals
`(px, py)`. -/
def tailScan (tx ty : Nat → Int) (px py : Int) : Nat → Nat → Bool
  | _, 0 => false
  | k, n + 1 => if px = tx k ∧ py = ty k then true else tailScan tx ty px py (k + 1) n

/-- One evaluation of the body of the `do ... while` loop of `generate_fruit`
after the two assignments: the value of `on_snake` (lines 41-52). -/
def on_snake (s : State) : Bool :=
  if s.fruitx = s.x ∧ s.fruity = s.y then true
  else tailScan s.snakeTailX s.snakeTailY s.fruitx s.fruity 0 s.snakeTailLen.toNat

/-- The two assignments at the top of the loop body of `generate_fruit`
(lines 37-38), for the samples `r1` and `r2` of `rand()`. -/
def sample_fruit (s : State) (r1 r2 : Nat) : State :=
  { s with fruitx := ((r1 : Int) % (WIDTH - 2)) + 1,
           fruity := ((r2 : Int) % (HEIGHT - 2)) + 1 }

/-- The function `void generate_fruit()` (lines 32-54): it draws two samples per
candidate cell and retries while the candidate is on the snake. -/
def generate_fruit (s : State) : List Nat → Option (State × List Nat)
  | r1 :: r2 :: rs =>
    if on_snake (sample_fruit s r1 r2) then generate_fruit (sample_fruit s r1 r2) rs
    else some (sample_fruit s r1 r2, rs)
  | _ => none

/-- The function `void setup()` (lines 57-65). -/
def setup (s : State) (rs : List Nat) : Option (State × List Nat) :=
  generate_fruit
    { s with gameover := false, direction := 3, x := WIDTH / 2, y := HEIGHT / 2,
             snakeTailLen := 0, score := 0 } rs

/-- The `switch (ch)` of `input()` (lines 105-129): the value of `new_direction`. -/
def new_direction (ch : Int) (direction : Int) : Int :=
  if ch = 97 ∨ ch = 65 then 1
  else if ch = 115 ∨ ch = 83 then 2
  else if ch = 100 ∨ ch = 68 then 3
  else if ch = 119 ∨ ch = 87 then 4
  else direction

/-- The function `void input()` (lines 101-141), for the key code `ch` returned by
`getch()`. -/
def input (ch : Int) (s : State) : State :=
  let nd := new_direction ch s.direction
  let g := if ch = 120 ∨ ch = 88 then true else s.gameover
  if (nd = 1 ∧ s.direction ≠ 3) ∨ (nd = 2 ∧ s.direction ≠ 4) ∨
     (nd = 3 ∧ s.direction ≠ 1) ∨ (nd = 4 ∧ s.direction ≠ 2) ∨ s.direction = 0
  then { s with gameover := g, direction := nd }
  else { s with gameover := g }

/-- The `switch (direction)` of `logic()` (lines 151-157). -/
def move_head (s : State) : State :=
  if s.direction = 1 then { s with x := s.x - 1 }
  else if s.direction = 2 then { s with y := s.y + 1 }
  else if s.direction = 3 then { s with x := s.x + 1 }
  else if s.direction = 4 then { s with y := s.y - 1 }
  else s

/-- The wall test of `logic()` (line 160). -/
def wall_collision (s : State) : Bool :=
  decide (s.x ≤ 0 ∨ s.x ≥ WIDTH - 1 ∨ s.y ≤ 0 ∨ s.y ≥ HEIGHT - 1)

/-- The self collision loop of `logic()` (lines 166-171). -/
def self_collision (s : State) : Bool :=
  tailScan s.snakeTailX s.snakeTailY s.x s.y 0 s.snakeTailLen.toNat

/-- The fruit block of `logic()` (lines 174-183), with `score += 10` taken over
unbounded integers (see `fruit_collision_int` for the 32-bit `int`).  The
`mvprintw` of the `else` branch only draws a message and changes no global. -/
def fruit_collision (s : State) (rs : List Nat) : Option (State × List Nat) :=
  if s.x = s.fruitx ∧ s.y = s.fruity then
    generate_fruit
      { s with score := s.score + 10,
               snakeTailLen := if s.snakeTailLen < MAX_TAIL_LEN then s.snakeTailLen + 1
                               else s.snakeTailLen } rs
  else some (s, rs)

/-- The loop `for (i = snakeTailLen - 1; i > 0; i--)` of `logic()` (lines 189-192),
entered with `i` as given. -/
def shift_loop (s : State) : Nat → State
  | 0 => s
  | i + 1 =>
    shift_loop
      { s with snakeTailX := Function.update s.snakeTailX (i + 1) (s.snakeTailX i),
               snakeTailY := Function.update s.snakeTailY (i + 1) (s.snakeTailY i) } i

/-- The tail update of `logic()` (lines 187-196). -/
def update_tail (s : State) (prev_hx prev_hy : Int) : State :=
  if s.snakeTailLen > 0 then
    let t := shift_loop s (s.snakeTailLen - 1).toNat
    { t with snakeTailX := Function.update t.snakeTailX 0 prev_hx,
             snakeTailY := Function.update t.snakeTailY 0 prev_hy }
  else s

/-- The function `void logic()` (lines 144-197). -/
def logic (s : State) (rs : List Nat) : Option (State × List Nat) :=
  if s.gameover then some (s, rs)
  else
    let prev_hx := s.x
    let prev_hy := s.y
    let m := move_head s
    if wall_collision m then some ({ m with gameover := true }, rs)
    else if self_collision m then some ({ m with gameover := true }, rs)
    else
      match fruit_collision m rs with
      | none => none
      | some (f, rs1) => some (update_tail f prev_hx prev_hy, rs1)

/-- One tick of the main loop (lines 218-219): `input()` then `logic()`. -/
def tick (ch : Int) (s : State) (rs : List Nat) : Option (State × List Nat) :=
  logic (input ch s) rs

/-- The states the program can be in: right after `setup()`, or after one more
tick from such a state, for any key and any samples of `rand()`. -/
inductive Reachable : State → Prop
  | setup (s0 s : State) (rs rs1 : List Nat) :
      Snake.setup s0 rs = some (s, rs1) → Reachable s
  | tick (s s1 : State) (ch : Int) (rs rs1 : List Nat) :
      Reachable s → Snake.tick ch s rs = some (s1, rs1) → Reachable s1

/-- The globals as C zero-initialises them before `main` runs. -/
def zeroState : State :=
  { snakeTailX := fun _ => 0, snakeTailY := fun _ => 0, snakeTailLen := 0,
    gameover := false, score := 0, x := 0, y := 0, fruitx := 0, fruity := 0,
    direction := 0 }

/-- The key code `getch()` returns when no key is pending (`ERR`). -/
def NO_KEY : Int := -1

/-- The `i`-th candidate cell sampled by `generate_fruit` from the samples `rs`
(lines 37-38): samples `2 i` and `2 i + 1` of the list. -/
def candidate (rs : List Nat) (i : Nat) : Int × Int :=
  (((rs.getD (2 * i) 0 : Nat) : Int) % (WIDTH - 2) + 1,
   ((rs.getD (2 * i + 1) 0 : Nat) : Int) % (HEIGHT - 2) + 1)

/-- The cell `(fx, fy)` is neither the head nor a body cell of `s`. -/
def Free (s : State) (fx fy : Int) : Prop :=
  ¬(fx = s.x ∧ fy = s.y) ∧
  ∀ k : Nat, (k : Int) < s.snakeTailLen → ¬(fx = s.snakeTailX k ∧ fy = s.snakeTailY k)

/-- The cell `(px, py)` lies strictly inside the wall border. -/
def Inside (px py : Int) : Prop :=
  1 ≤ px ∧ px ≤ WIDTH - 2 ∧ 1 ≤ py ∧ py ≤ HEIGHT - 2

/-- Head and body cells are pairwise distinct and strictly inside the border. -/
def SnakeOK (s : State) : Prop :=
  Inside s.x s.y ∧
  (∀ k : Nat, (k : Int) < s.snakeTailLen → Inside (s.snakeTailX k) (s.snakeTailY k)) ∧
  (∀ k : Nat, (k : Int) < s.snakeTailLen → ¬(s.snakeTailX k = s.x ∧ s.snakeTailY k = s.y)) ∧
  (∀ j k : Nat, j < k → (k : Int) < s.snakeTailLen →
    ¬(s.snakeTailX j = s.snakeTailX k ∧ s.snakeTailY j = s.snakeTailY k))

/-- The invariant carried along every run: the direction is one of the four
moves, and while the game is live the tail length is within the array and the
snake is well formed. -/
def Inv (s : State) : Prop :=
  (s.direction = 1 ∨ s.direction = 2 ∨ s.direction = 3 ∨ s.direction = 4) ∧
  (s.gameover = false →
    0 ≤ s.snakeTailLen ∧ s.snakeTailLen ≤ MAX_TAIL_LEN ∧ SnakeOK s)

/-- The key code `ch` is one of the two keys that the `switch` of `input`
maps to the direction `r` (lines 106-121): a/A, s/S, d/D, w/W. -/
def requests (ch r : Int) : Prop :=
  (r = 1 ∧ (ch = 97 ∨ ch = 65)) ∨ (r = 2 ∧ (ch = 115 ∨ ch = 83)) ∨
  (r = 3 ∧ (ch = 100 ∨ ch = 68)) ∨ (r = 4 ∧ (ch = 119 ∨ ch = 87))

/-- The direction `r` is the reverse of the direction `d`
(1 = left, 2 = down, 3 = right, 4 = up). -/
def opposite (d r : Int) : Prop :=
  (d = 3 ∧ r = 1) ∨ (d = 1 ∧ r = 3) ∨ (d = 2 ∧ r = 4) ∨ (d = 4 ∧ r = 2)

/-- The state after `setup()` on zeroed globals with `rand()` giving 20, 9:
head (20,10), fruit (21,10) right in front of the head. -/
def exSetup : State :=
  { snakeTailX := fun _ => 0, snakeTailY := fun _ => 0, snakeTailLen := 0,
    gameover := false, score := 0, x := 20, y := 10, fruitx := 21, fruity := 10,
    direction := 3 }

/-- The state after `setup()` on zeroed globals with `rand()` giving 5, 5:
head (20,10), fruit (6,6). -/
def exSetupFar : State :=
  { snakeTailX := fun _ => 0, snakeTailY := fun _ => 0, snakeTailLen := 0,
    gameover := false, score := 0, x := 20, y := 10, fruitx := 6, fruity := 6,
    direction := 3 }

/-- The state one tick after `exSetup` with no key and `rand()` giving 5, 5:
the head ate the fruit at (21,10), the tail is the cell (20,10), the fruit
moved to (6,6). -/
def exGrown : State :=
  { snakeTailX := Function.update (fun _ => 0) 0 20,
    snakeTailY := Function.update (fun _ => 0) 0 10, snakeTailLen := 1,
    gameover := false, score := 10, x := 21, y := 10, fruitx := 6, fruity := 6,
    direction := 3 }

/-- The state one tick after `exSetup` with no key and `rand()` giving 19, 9:
the head ate the fruit at (21,10) and the new fruit is at (20,10), the cell the
tail shift then wrote into segment 0. -/
def exFruitOnTail : State :=
  { snakeTailX := Function.update (fun _ => 0) 0 20,
    snakeTailY := Function.update (fun _ => 0) 0 10, snakeTailLen := 1,
    gameover := false, score := 10, x := 21, y := 10, fruitx := 20, fruity := 10,
    direction := 3 }

/-- The state one tick after `exSetupFar` with no key: the head moved right. -/
def exMoved : State :=
  { snakeTailX := fun _ => 0, snakeTailY := fun _ => 0, snakeTailLen := 0,
    gameover := false, score := 0, x := 21, y := 10, fruitx := 6, fruity := 6,
    direction := 3 }

/-- A live state with the head at (1,10), the innermost-left playable cell,
moving left. -/
def exAtWall : State :=
  { snakeTailX := fun _ => 0, snakeTailY := fun _ => 0, snakeTailLen := 0,
    gameover := false, score := 0, x := 1, y := 10, fruitx := 6, fruity := 6,
    direction := 1 }

/-- A live state whose head at (20,10) moves right onto its body cell 1 at (21,10). -/
def exBite : State :=
  { snakeTailX := fun k => if k = 0 then 20 else if k = 1 then 21 else 0,
    snakeTailY := fun k => if k = 0 then 11 else if k = 1 then 10 else 0,
    snakeTailLen := 2,
    gameover := false, score := 20, x := 20, y := 10, fruitx := 6, fruity := 6,
    direction := 3 }

/-- A terminated state. -/
def exOver : State :=
  { snakeTailX := fun _ => 0, snakeTailY := fun _ => 0, snakeTailLen := 0,
    gameover := true, score := 0, x := 0, y := 10, fruitx := 6, fruity := 6,
    direction := 1 }

/-- The test under which a call of `logic()` on `s` executes the fruit block
with the head on the fruit (lines 145-174): the game is live, the moved head
passed the wall test and the self collision scan, and it is on the fruit cell. -/
def eats (s : State) : Bool :=
  !s.gameover && !wall_collision (move_head s) && !self_collision (move_head s) &&
    decide ((move_head s).x = (move_head s).fruitx ∧ (move_head s).y = (move_head s).fruity)

/-- A run of the program: the states at the end of `setup()` and of each tick
since, newest first, together with the number of ticks in which the head ate
the fruit.  With `t` ticks done the list has `t + 1` states; the state at the end
of tick `j` (tick 0 being `setup()`) is at position `t - j`. -/
inductive Run : List State → Nat → Prop
  | setup (s0 s : State) (rs rs1 : List Nat) :
      Snake.setup s0 rs = some (s, rs1) → Run [s] 0
  | tick (s s1 : State) (hist : List State) (n : Nat) (ch : Int) (rs rs1 : List Nat) :
      Run (s :: hist) n → Snake.tick ch s rs = some (s1, rs1) →
      Run (s1 :: s :: hist) (n + if eats (input ch s) = true then 1 else 0)

/-- Body segment 0 is the cell right behind the head, against the current
direction (1 = left, 2 = down, 3 = right, 4 = up). -/
def Neck (s : State) : Prop :=
  (s.direction = 1 ∧ s.snakeTailX 0 = s.x + 1 ∧ s.snakeTailY 0 = s.y) ∨
  (s.direction = 2 ∧ s.snakeTailX 0 = s.x ∧ s.snakeTailY 0 = s.y - 1) ∨
  (s.direction = 3 ∧ s.snakeTailX 0 = s.x - 1 ∧ s.snakeTailY 0 = s.y) ∨
  (s.direction = 4 ∧ s.snakeTailX 0 = s.x ∧ s.snakeTailY 0 = s.y + 1)

/-- The array indices read by the scan `tailScan`, in order: index `k` at each
iteration, up to and including the one that finds `(px, py)`. -/
def tailScan_indices (tx ty : Nat → Int) (px py : Int) : Nat → Nat → List Nat
  | _, 0 => []
  | k, n + 1 =>
    k :: (if px = tx k ∧ py = ty k then [] else tailScan_indices tx ty px py (k + 1) n)

/-- The indices of `snakeTailX` / `snakeTailY` read by `generate_fruit()` on the
samples `rs` (lines 47-52): per candidate, none when it is on the head, else
those of the scan of the tail. -/
def generate_fruit_indices (s : State) : List Nat → List Nat
  | r1 :: r2 :: rs =>
    (if (sample_fruit s r1 r2).fruitx = (sample_fruit s r1 r2).x ∧
        (sample_fruit s r1 r2).fruity = (sample_fruit s r1 r2).y then []
     else tailScan_indices (sample_fruit s r1 r2).snakeTailX (sample_fruit s r1 r2).snakeTailY
        (sample_fruit s r1 r2).fruitx (sample_fruit s r1 r2).fruity 0
        (sample_fruit s r1 r2).snakeTailLen.toNat) ++
    (if on_snake (sample_fruit s r1 r2) then generate_fruit_indices (sample_fruit s r1 r2) rs
     else [])
  | _ => []

/-- The indices accessed by the loop `shift_loop` entered with `i`: each
iteration writes index `i` and reads index `i - 1` (lines 190-191). -/
def shift_loop_indices : Nat → List Nat
  | 0 => []
  | i + 1 => (i + 1) :: i :: shift_loop_indices i

/-- The indices accessed by the tail update of `logic()` (lines 187-196): those
of the shift loop, then index 0. -/
def update_tail_indices (s : State) : List Nat :=
  if s.snakeTailLen > 0 then shift_loop_indices (s.snakeTailLen - 1).toNat ++ [0]
  else []

/-- The indices of `snakeTailX` / `snakeTailY` accessed by a call of `logic()`
(lines 144-197), `generate_fruit()` included, on the samples `rs`. -/
def logic_indices (s : State) (rs : List Nat) : List Nat :=
  if s.gameover then []
  else if wall_collision (move_head s) then []
  else
    tailScan_indices (move_head s).snakeTailX (move_head s).snakeTailY
      (move_head s).x (move_head s).y 0 (move_head s).snakeTailLen.toNat ++
    (if self_collision (move_head s) then []
     else
      (if (move_head s).x = (move_head s).fruitx ∧ (move_head s).y = (move_head s).fruity then
        generate_fruit_indices
          { move_head s with
              score := (move_head s).score + 10,
              snakeTailLen :=
                if (move_head s).snakeTailLen < MAX_TAIL_LEN then (move_head s).snakeTailLen + 1
                else (move_head s).snakeTailLen } rs
       else []) ++
      (match fruit_collision (move_head s) rs with
       | none => []
       | some (f, _) => update_tail_indices f))

/-- The indices of `snakeTailX` / `snakeTailY` accessed by `setup()`, through its
call of `generate_fruit()` (line 64). -/
def setup_indices (s : State) (rs : List Nat) : List Nat :=
  generate_fruit_indices
    { s with gameover := false, direction := 3, x := WIDTH / 2, y := HEIGHT / 2,
             snakeTailLen := 0, score := 0 } rs

/-- The state one tick after `exSetup` with the key w (up): the head moved from
(20,10) to (20,9). -/
def exTurned : State :=
  { snakeTailX := fun _ => 0, snakeTailY := fun _ => 0, snakeTailLen := 0,
    gameover := false, score := 0, x := 20, y := 9, fruitx := 21, fruity := 10,
    direction := 4 }

/-- The largest value of a 32-bit `int`. -/
def INT_MAX : Int := 2147483647

/-- The smallest value of a 32-bit `int`. -/
def INT_MIN : Int := -2147483648

/-- The value a 32-bit `int` holds after an arithmetic operation whose exact
result is `v`: two's complement wrap-around into `[INT_MIN, INT_MAX]`. -/
def wrap_int (v : Int) : Int :=
  (v + 2147483648) % 4294967296 - 2147483648

/-- The fruit block of `logic()` (lines 174-183) with `score += 10` computed in
the 32-bit `int` of the source.  The `mvprintw` of the `else` branch only draws
a message and changes no global. -/
def fruit_collision_int (s : State) (rs : List Nat) : Option (State × List Nat) :=
  if s.x = s.fruitx ∧ s.y = s.fruity then
    generate_fruit
      { s with score := wrap_int (s.score + 10),
               snakeTailLen := if s.snakeTailLen < MAX_TAIL_LEN then s.snakeTailLen + 1
                               else s.snakeTailLen } rs
  else some (s, rs)

/-- The function `void logic()` (lines 144-197) with `score += 10` computed in
the 32-bit `int` of the source. -/
def logic_int (s : State) (rs : List Nat) : Option (State × List Nat) :=
  if s.gameover then some (s, rs)
  else
    let prev_hx := s.x
    let prev_hy := s.y
    let m := move_head s
    if wall_collision m then some ({ m with gameover := true }, rs)
    else if self_collision m then some ({ m with gameover := true }, rs)
    else
      match fruit_collision_int m rs with
      | none => none
      | some (f, rs1) => some (update_tail f prev_hx prev_hy, rs1)

/-- A live state with the head at (20,10) moving right onto the fruit at
(21,10), with an empty body and the score 2147483640 = INT_MAX - 7. -/
def exRich : State :=
  { snakeTailX := fun _ => 0, snakeTailY := fun _ => 0, snakeTailLen := 0,
    gameover := false, score := 2147483640, x := 20, y := 10, fruitx := 21, fruity := 10,
    direction := 3 }

/-- The state after `logic()` on `exRich` with `rand()` giving 5, 5: the head ate
the fruit and the score wrapped to -2147483646. -/
def exRichAte : State :=
  { snakeTailX := Function.update (fun _ => 0) 0 20,
    snakeTailY := Function.update (fun _ => 0) 0 10, snakeTailLen := 1,
    gameover := false, score := -2147483646, x := 21, y := 10, fruitx := 6, fruity := 6,
    direction := 3 }

/-! ## The scan of the tail -/

theorem tailScan_eq_true (tx ty : Nat → Int) (px py : Int) (n : Nat) :
    ∀ k, tailScan tx ty px py k n = true ↔
      ∃ j, k ≤ j ∧ j < k + n ∧ px = tx j ∧ py = ty j := by
  induction n with
  | zero =>
    intro k
    simp only [tailScan, Nat.add_zero]
    constructor
    · intro h
      exact absurd h (by decide)
    · rintro ⟨j, h1, h2, _⟩
      omega
  | succ n ih =>
    intro k
    unfold tailScan
    by_cases h : px = tx k ∧ py = ty k
    · simp only [h, and_self, if_true, true_iff]
      exact ⟨k, le_refl k, by omega, h.1 ▸ rfl, h.2 ▸ rfl⟩
    · rw [if_neg h, ih (k + 1)]
      constructor
      · rintro ⟨j, h1, h2, h3⟩
        exact ⟨j, by omega, by omega, h3⟩
      · rintro ⟨j, h1, h2, h3⟩
        have hjk : j ≠ k := by
          intro e
          subst e
          exact h h3
        exact ⟨j, by omega, by omega, h3⟩

theorem tailScan_eq_false (tx ty : Nat → Int) (px py : Int) (n : Nat) :
    tailScan tx ty px py 0 n = false ↔
      ∀ j, j < n → ¬(px = tx j ∧ py = ty j) := by
  rw [← Bool.not_eq_true, tailScan_eq_true]
  constructor
  · intro h j hj hp
    exact h ⟨j, Nat.zero_le j, by omega, hp⟩
  · rintro h ⟨j, _, hj, hp⟩
    exact h j (by omega) hp

theorem on_snake_eq_false (s : State) :
    on_snake s = false ↔ Free s s.fruitx s.fruity := by
  unfold on_snake Free
  by_cases h : s.fruitx = s.x ∧ s.fruity = s.y
  · simp [h]
  · rw [if_neg h, tailScan_eq_false]
    constructor
    · intro hs
      exact ⟨h, fun k hk => hs k (by omega)⟩
    · rintro ⟨_, hs⟩ j hj
      exact hs j (by omega)

theorem self_collision_eq_false (s : State) :
    self_collision s = false ↔
      ∀ k : Nat, (k : Int) < s.snakeTailLen →
        ¬(s.snakeTailX k = s.x ∧ s.snakeTailY k = s.y) := by
  unfold self_collision
  rw [tailScan_eq_false]
  constructor
  · intro h k hk hp
    exact h k (by omega) ⟨hp.1.symm, hp.2.symm⟩
  · intro h j hj hp
    exact h j (by omega) ⟨hp.1.symm, hp.2.symm⟩

/-! ## Fruit placement -/

theorem generate_fruit_sample (s : State) (a b : Nat) (rs : List Nat) :
    generate_fruit (sample_fruit s a b) rs = generate_fruit s rs := by
  match rs with
  | [] => rfl
  | [_] => rfl
  | r1 :: r2 :: rs => rfl

theorem generate_fruit_cons (s : State) (r1 r2 : Nat) (rs : List Nat) :
    generate_fruit s (r1 :: r2 :: rs) =
      if on_snake (sample_fruit s r1 r2) then generate_fruit s rs
      else some (sample_fruit s r1 r2, rs) := by
  rw [← generate_fruit_sample s r1 r2 rs]
  rfl

/-- What a returning `generate_fruit` has done: it consumed `n + 1` candidate
cells, rejected the first `n` as lying on the snake and stored the last one. -/
theorem generate_fruit_some (s : State) :
    ∀ (rs : List Nat) (s1 : State) (rs1 : List Nat),
      generate_fruit s rs = some (s1, rs1) →
      ∃ n : Nat, 2 * n + 2 ≤ rs.length ∧ rs1 = rs.drop (2 * n + 2) ∧
        s1 = sample_fruit s (rs.getD (2 * n) 0) (rs.getD (2 * n + 1) 0) ∧
        on_snake s1 = false ∧
        ∀ i, i < n →
          on_snake (sample_fruit s (rs.getD (2 * i) 0) (rs.getD (2 * i + 1) 0)) = true
  | [], _, _, h => by simp [generate_fruit] at h
  | [_], _, _, h => by simp [generate_fruit] at h
  | r1 :: r2 :: rs, s1, rs1, h => by
    rw [generate_fruit_cons] at h
    by_cases hc : on_snake (sample_fruit s r1 r2) = true
    · rw [if_pos hc] at h
      obtain ⟨n, hlen, hdrop, hs1, hfree, hrej⟩ := generate_fruit_some s rs s1 rs1 h
      refine ⟨n + 1, by simp only [List.length_cons]; omega, ?_, ?_, hfree, ?_⟩
      · rw [hdrop]
        rfl
      · rw [hs1]
        rfl
      · intro i hi
        match i with
        | 0 => exact hc
        | i + 1 => exact hrej i (by omega)
    · rw [if_neg hc] at h
      simp only [Option.some.injEq, Prod.mk.injEq] at h
      obtain ⟨h1, h2⟩ := h
      subst h1
      subst h2
      exact ⟨0, by simp, rfl, rfl, by simpa using hc, fun i hi => absurd hi (Nat.not_lt_zero i)⟩

/-- A returning `generate_fruit` changes the fruit cell only. -/
theorem generate_fruit_frame (s : State) (rs : List Nat) (s1 : State) (rs1 : List Nat)
    (h : generate_fruit s rs = some (s1, rs1)) :
    s1 = { s with fruitx := s1.fruitx, fruity := s1.fruity } := by
  obtain ⟨n, _, _, hs1, _⟩ := generate_fruit_some s rs s1 rs1 h
  rw [hs1]
  rfl

/-- Termination on a good stream: when the `n`-th candidate is the first one
off the snake, `generate_fruit` returns after `n + 1` candidates. -/
theorem generate_fruit_returns (s : State) :
    ∀ (n : Nat) (rs : List Nat), 2 * n + 2 ≤ rs.length →
      on_snake (sample_fruit s (rs.getD (2 * n) 0) (rs.getD (2 * n + 1) 0)) = false →
      (∀ i, i < n →
        on_snake (sample_fruit s (rs.getD (2 * i) 0) (rs.getD (2 * i + 1) 0)) = true) →
      generate_fruit s rs =
        some (sample_fruit s (rs.getD (2 * n) 0) (rs.getD (2 * n + 1) 0), rs.drop (2 * n + 2))
  | _, [], h, _, _ => by simp at h
  | _, [_], h, _, _ => by simp at h
  | 0, r1 :: r2 :: rs, _, hfree, _ => by
    rw [generate_fruit_cons]
    have hf : on_snake (sample_fruit s r1 r2) = false := hfree
    simp [hf]
  | n + 1, r1 :: r2 :: rs, hlen, hfree, hrej => by
    rw [generate_fruit_cons]
    have h0 : on_snake (sample_fruit s r1 r2) = true := hrej 0 (by omega)
    rw [if_pos h0]
    have hl : 2 * n + 2 ≤ rs.length := by
      simp only [List.length_cons] at hlen
      omega
    have := generate_fruit_returns s n rs hl hfree (fun i hi => hrej (i + 1) (by omega))
    rw [this]
    rfl

/-! ## The tail shift -/

theorem shift_loop_frame (n : Nat) :
    ∀ s : State, (shift_loop s n).snakeTailLen = s.snakeTailLen ∧
      (shift_loop s n).gameover = s.gameover ∧ (shift_loop s n).score = s.score ∧
      (shift_loop s n).x = s.x ∧ (shift_loop s n).y = s.y ∧
      (shift_loop s n).fruitx = s.fruitx ∧ (shift_loop s n).fruity = s.fruity ∧
      (shift_loop s n).direction = s.direction := by
  induction n with
  | zero => intro s; exact ⟨rfl, rfl, rfl, rfl, rfl, rfl, rfl, rfl⟩
  | succ n ih => intro s; exact ih _

theorem shift_loop_X (n : Nat) :
    ∀ (s : State) (j : Nat), (shift_loop s n).snakeTailX j =
      if 1 ≤ j ∧ j ≤ n then s.snakeTailX (j - 1) else s.snakeTailX j := by
  induction n with
  | zero =>
    intro s j
    have : ¬(1 ≤ j ∧ j ≤ 0) := by omega
    rw [if_neg this]
    rfl
  | succ n ih =>
    intro s j
    show (shift_loop _ n).snakeTailX j = _
    rw [ih]
    by_cases h1 : 1 ≤ j ∧ j ≤ n
    · have h2 : 1 ≤ j ∧ j ≤ n + 1 := ⟨h1.1, by omega⟩
      rw [if_pos h1, if_pos h2]
      exact Function.update_noteq (by omega) _ _
    · rw [if_neg h1]
      by_cases h3 : j = n + 1
      · subst h3
        rw [if_pos ⟨by omega, le_refl _⟩]
        simp
      · have h2 : ¬(1 ≤ j ∧ j ≤ n + 1) := by omega
        rw [if_neg h2]
        exact Function.update_noteq h3 _ _

theorem shift_loop_Y (n : Nat) :
    ∀ (s : State) (j : Nat), (shift_loop s n).snakeTailY j =
      if 1 ≤ j ∧ j ≤ n then s.snakeTailY (j - 1) else s.snakeTailY j := by
  induction n with
  | zero =>
    intro s j
    have : ¬(1 ≤ j ∧ j ≤ 0) := by omega
    rw [if_neg this]
    rfl
  | succ n ih =>
    intro s j
    show (shift_loop _ n).snakeTailY j = _
    rw [ih]
    by_cases h1 : 1 ≤ j ∧ j ≤ n
    · have h2 : 1 ≤ j ∧ j ≤ n + 1 := ⟨h1.1, by omega⟩
      rw [if_pos h1, if_pos h2]
      exact Function.update_noteq (by omega) _ _
    · rw [if_neg h1]
      by_cases h3 : j = n + 1
      · subst h3
        rw [if_pos ⟨by omega, le_refl _⟩]
        simp
      · have h2 : ¬(1 ≤ j ∧ j ≤ n + 1) := by omega
        rw [if_neg h2]
        exact Function.update_noteq h3 _ _

theorem update_tail_frame (s : State) (px py : Int) :
    (update_tail s px py).snakeTailLen = s.snakeTailLen ∧
      (update_tail s px py).gameover = s.gameover ∧ (update_tail s px py).score = s.score ∧
      (update_tail s px py).x = s.x ∧ (update_tail s px py).y = s.y ∧
      (update_tail s px py).fruitx = s.fruitx ∧ (update_tail s px py).fruity = s.fruity ∧
      (update_tail s px py).direction = s.direction := by
  unfold update_tail
  by_cases h : s.snakeTailLen > 0
  · rw [if_pos h]
    exact shift_loop_frame _ s
  · rw [if_neg h]
    exact ⟨rfl, rfl, rfl, rfl, rfl, rfl, rfl, rfl⟩

/-- After the tail update, segment 0 holds the previous head position and
segment `j` (with `1 ≤ j < snakeTailLen`) holds what segment `j - 1` held. -/
theorem update_tail_X (s : State) (px py : Int) (j : Nat) (hj : (j : Int) < s.snakeTailLen) :
    (update_tail s px py).snakeTailX j = if j = 0 then px else s.snakeTailX (j - 1) := by
  unfold update_tail
  have h : s.snakeTailLen > 0 := by omega
  rw [if_pos h]
  by_cases h0 : j = 0
  · subst h0
    simp
  · rw [if_neg h0]
    show Function.update (shift_loop s (s.snakeTailLen - 1).toNat).snakeTailX 0 px j = _
    rw [Function.update_noteq h0, shift_loop_X, if_pos ⟨by omega, by omega⟩]

theorem update_tail_Y (s : State) (px py : Int) (j : Nat) (hj : (j : Int) < s.snakeTailLen) :
    (update_tail s px py).snakeTailY j = if j = 0 then py else s.snakeTailY (j - 1) := by
  unfold update_tail
  have h : s.snakeTailLen > 0 := by omega
  rw [if_pos h]
  by_cases h0 : j = 0
  · subst h0
    simp
  · rw [if_neg h0]
    show Function.update (shift_loop s (s.snakeTailLen - 1).toNat).snakeTailY 0 py j = _
    rw [Function.update_noteq h0, shift_loop_Y, if_pos ⟨by omega, by omega⟩]

/-! ## `input`, `move_head` and `logic` -/

theorem input_frame (ch : Int) (s : State) :
    (input ch s).snakeTailX = s.snakeTailX ∧ (input ch s).snakeTailY = s.snakeTailY ∧
      (input ch s).snakeTailLen = s.snakeTailLen ∧ (input ch s).score = s.score ∧
      (input ch s).x = s.x ∧ (input ch s).y = s.y ∧
      (input ch s).fruitx = s.fruitx ∧ (input ch s).fruity = s.fruity := by
  unfold input
  simp only
  split <;> exact ⟨rfl, rfl, rfl, rfl, rfl, rfl, rfl, rfl⟩

theorem input_gameover (ch : Int) (s : State) :
    (input ch s).gameover = if ch = 120 ∨ ch = 88 then true else s.gameover := by
  unfold input
  simp only
  split <;> rfl

theorem input_direction (ch : Int) (s : State) :
    (input ch s).direction =
      if (new_direction ch s.direction = 1 ∧ s.direction ≠ 3) ∨
         (new_direction ch s.direction = 2 ∧ s.direction ≠ 4) ∨
         (new_direction ch s.direction = 3 ∧ s.direction ≠ 1) ∨
         (new_direction ch s.direction = 4 ∧ s.direction ≠ 2) ∨ s.direction = 0
      then new_direction ch s.direction else s.direction := by
  unfold input
  simp only
  split <;> rfl

theorem new_direction_cases (ch d : Int) :
    new_direction ch d = 1 ∨ new_direction ch d = 2 ∨ new_direction ch d = 3 ∨
      new_direction ch d = 4 ∨ new_direction ch d = d := by
  unfold new_direction
  split_ifs <;> simp

theorem input_direction_ok (ch : Int) (s : State)
    (h : s.direction = 1 ∨ s.direction = 2 ∨ s.direction = 3 ∨ s.direction = 4) :
    (input ch s).direction = 1 ∨ (input ch s).direction = 2 ∨
      (input ch s).direction = 3 ∨ (input ch s).direction = 4 := by
  rw [input_direction]
  have hn := new_direction_cases ch s.direction
  split
  · omega
  · exact h

theorem move_head_frame (s : State) :
    (move_head s).snakeTailX = s.snakeTailX ∧ (move_head s).snakeTailY = s.snakeTailY ∧
      (move_head s).snakeTailLen = s.snakeTailLen ∧ (move_head s).gameover = s.gameover ∧
      (move_head s).score = s.score ∧ (move_head s).fruitx = s.fruitx ∧
      (move_head s).fruity = s.fruity ∧ (move_head s).direction = s.direction := by
  unfold move_head
  split_ifs <;> exact ⟨rfl, rfl, rfl, rfl, rfl, rfl, rfl, rfl⟩

theorem move_head_xy (s : State) :
    ((move_head s).x, (move_head s).y) =
      if s.direction = 1 then (s.x - 1, s.y)
      else if s.direction = 2 then (s.x, s.y + 1)
      else if s.direction = 3 then (s.x + 1, s.y)
      else if s.direction = 4 then (s.x, s.y - 1)
      else (s.x, s.y) := by
  unfold move_head
  split_ifs <;> rfl

theorem move_head_moves (s : State)
    (h : s.direction = 1 ∨ s.direction = 2 ∨ s.direction = 3 ∨ s.direction = 4) :
    ((move_head s).x = s.x - 1 ∧ (move_head s).y = s.y) ∨
      ((move_head s).x = s.x ∧ (move_head s).y = s.y + 1) ∨
      ((move_head s).x = s.x + 1 ∧ (move_head s).y = s.y) ∨
      ((move_head s).x = s.x ∧ (move_head s).y = s.y - 1) := by
  have := move_head_xy s
  split_ifs at this <;> simp only [Prod.mk.injEq] at this <;> omega

theorem wall_collision_eq_false (s : State) :
    wall_collision s = false ↔ Inside s.x s.y := by
  unfold wall_collision Inside WIDTH HEIGHT
  simp only [decide_eq_false_iff_not]
  omega

/-- What the fruit block of `logic` does: nothing when the head is off the
fruit; otherwise it adds 10 to the score, grows the tail unless it is at its
maximum, and calls `generate_fruit`. -/
theorem fruit_collision_some (m : State) (rs : List Nat) (f : State) (rs1 : List Nat)
    (h : fruit_collision m rs = some (f, rs1)) :
    (¬(m.x = m.fruitx ∧ m.y = m.fruity) ∧ f = m ∧ rs1 = rs) ∨
      ((m.x = m.fruitx ∧ m.y = m.fruity) ∧
        generate_fruit
          { m with score := m.score + 10,
                   snakeTailLen := if m.snakeTailLen < MAX_TAIL_LEN then m.snakeTailLen + 1
                                   else m.snakeTailLen } rs = some (f, rs1)) := by
  unfold fruit_collision at h
  by_cases hc : m.x = m.fruitx ∧ m.y = m.fruity
  · rw [if_pos hc] at h
    exact Or.inr ⟨hc, h⟩
  · rw [if_neg hc] at h
    simp only [Option.some.injEq, Prod.mk.injEq] at h
    exact Or.inl ⟨hc, h.1.symm, h.2.symm⟩

theorem fruit_collision_frame (m : State) (rs : List Nat) (f : State) (rs1 : List Nat)
    (h : fruit_collision m rs = some (f, rs1)) :
    f.snakeTailX = m.snakeTailX ∧ f.snakeTailY = m.snakeTailY ∧ f.x = m.x ∧ f.y = m.y ∧
      f.gameover = m.gameover ∧ f.direction = m.direction ∧
      (f.snakeTailLen = m.snakeTailLen ∨
        (m.snakeTailLen < MAX_TAIL_LEN ∧ f.snakeTailLen = m.snakeTailLen + 1 ∧
          m.x = m.fruitx ∧ m.y = m.fruity)) := by
  rcases fruit_collision_some m rs f rs1 h with ⟨_, hf, _⟩ | ⟨hc, hg⟩
  · subst hf
    exact ⟨rfl, rfl, rfl, rfl, rfl, rfl, Or.inl rfl⟩
  · have hfr := generate_fruit_frame _ rs f rs1 hg
    rw [hfr]
    refine ⟨rfl, rfl, rfl, rfl, rfl, rfl, ?_⟩
    show (if m.snakeTailLen < MAX_TAIL_LEN then m.snakeTailLen + 1 else m.snakeTailLen) =
        m.snakeTailLen ∨ _
    by_cases hl : m.snakeTailLen < MAX_TAIL_LEN
    · rw [if_pos hl]
      exact Or.inr ⟨hl, rfl, hc.1, hc.2⟩
    · rw [if_neg hl]
      exact Or.inl rfl

theorem logic_gameover (s : State) (rs : List Nat) (h : s.gameover = true) :
    logic s rs = some (s, rs) := by
  unfold logic
  rw [if_pos h]

/-- The shape of a call of `logic` that starts and ends with the game live. -/
theorem logic_live (s : State) (rs : List Nat) (s1 : State) (rs1 : List Nat)
    (h : logic s rs = some (s1, rs1)) (hg : s.gameover = false)
    (hg1 : s1.gameover = false) :
    wall_collision (move_head s) = false ∧ self_collision (move_head s) = false ∧
      ∃ f, fruit_collision (move_head s) rs = some (f, rs1) ∧
        s1 = update_tail f s.x s.y := by
  unfold logic at h
  have hg0 : ¬(s.gameover = true) := by simp [hg]
  rw [if_neg hg0] at h
  simp only at h
  by_cases hw : wall_collision (move_head s) = true
  · rw [if_pos hw] at h
    simp only [Option.some.injEq, Prod.mk.injEq] at h
    rw [← h.1] at hg1
    exact absurd hg1 (by simp)
  · rw [if_neg hw] at h
    by_cases hs : self_collision (move_head s) = true
    · rw [if_pos hs] at h
      simp only [Option.some.injEq, Prod.mk.injEq] at h
      rw [← h.1] at hg1
      exact absurd hg1 (by simp)
    · rw [if_neg hs] at h
      refine ⟨by simpa using hw, by simpa using hs, ?_⟩
      cases hf : fruit_collision (move_head s) rs with
      | none => rw [hf] at h; simp at h
      | some p =>
        obtain ⟨f, r⟩ := p
        rw [hf] at h
        simp only [Option.some.injEq, Prod.mk.injEq] at h
        exact ⟨f, by rw [h.2], h.1.symm⟩

/-! ## The invariant of a run -/

theorem logic_preserves_SnakeOK (s : State) (rs : List Nat) (s1 : State) (rs1 : List Nat)
    (hd : s.direction = 1 ∨ s.direction = 2 ∨ s.direction = 3 ∨ s.direction = 4)
    (hlen : 0 ≤ s.snakeTailLen ∧ s.snakeTailLen ≤ MAX_TAIL_LEN) (hok : SnakeOK s)
    (hg : s.gameover = false) (h : logic s rs = some (s1, rs1))
    (hg1 : s1.gameover = false) :
    0 ≤ s1.snakeTailLen ∧ s1.snakeTailLen ≤ MAX_TAIL_LEN ∧ SnakeOK s1 := by
  obtain ⟨hw, hsc, f, hf, hs1⟩ := logic_live s rs s1 rs1 h hg hg1
  obtain ⟨fX, fY, fx, fy, _, _, flen⟩ := fruit_collision_frame _ _ _ _ hf
  obtain ⟨mX, mY, mlen, _⟩ := move_head_frame s
  have hmv := move_head_moves s hd
  rw [wall_collision_eq_false] at hw
  rw [self_collision_eq_false, mX, mY, mlen] at hsc
  obtain ⟨ulen, _, _, ux, uy, _⟩ := update_tail_frame f s.x s.y
  have hX := update_tail_X f s.x s.y
  have hY := update_tail_Y f s.x s.y
  rw [mlen] at flen
  obtain ⟨hin, hbody, hhead, hpair⟩ := hok
  subst hs1
  rw [ulen]
  refine ⟨by omega, by omega, ?_, ?_, ?_, ?_⟩
  · rw [ux, uy, fx, fy]
    exact hw
  · intro k hk
    rw [ulen] at hk
    rw [hX k hk, hY k hk]
    by_cases h0 : k = 0
    · rw [if_pos h0, if_pos h0]
      exact hin
    · rw [if_neg h0, if_neg h0, fX, fY, mX, mY]
      exact hbody (k - 1) (by omega)
  · intro k hk
    rw [ulen] at hk
    rw [hX k hk, hY k hk, ux, uy, fx, fy]
    by_cases h0 : k = 0
    · rw [if_pos h0, if_pos h0]
      omega
    · rw [if_neg h0, if_neg h0, fX, fY, mX, mY]
      exact hsc (k - 1) (by omega)
  · intro j k hjk hk
    rw [ulen] at hk
    have hj : (j : Int) < f.snakeTailLen := by omega
    have hk0 : k ≠ 0 := by omega
    rw [hX k hk, hY k hk, hX j hj, hY j hj, if_neg hk0, if_neg hk0]
    by_cases h0 : j = 0
    · rw [if_pos h0, if_pos h0, fX, fY, mX, mY]
      intro hp
      exact hhead (k - 1) (by omega) ⟨hp.1.symm, hp.2.symm⟩
    · rw [if_neg h0, if_neg h0, fX, fY, mX, mY]
      exact hpair (j - 1) (k - 1) (by omega) (by omega)

/-- The fields `setup` assigns directly (lines 58-63). -/
theorem setup_frame (s0 s : State) (rs rs1 : List Nat) (h : setup s0 rs = some (s, rs1)) :
    s.gameover = false ∧ s.direction = 3 ∧ s.x = 20 ∧ s.y = 10 ∧ s.snakeTailLen = 0 ∧
      s.score = 0 ∧ s.snakeTailX = s0.snakeTailX ∧ s.snakeTailY = s0.snakeTailY := by
  unfold setup at h
  have hfr := generate_fruit_frame _ rs s rs1 h
  have h1 := congrArg State.gameover hfr
  have h2 := congrArg State.direction hfr
  have h3 := congrArg State.x hfr
  have h4 := congrArg State.y hfr
  have h5 := congrArg State.snakeTailLen hfr
  have h6 := congrArg State.score hfr
  have h7 := congrArg State.snakeTailX hfr
  have h8 := congrArg State.snakeTailY hfr
  exact ⟨h1, h2, h3, h4, h5, h6, h7, h8⟩

theorem Inv_setup (s0 s : State) (rs rs1 : List Nat) (h : setup s0 rs = some (s, rs1)) :
    Inv s := by
  obtain ⟨_, hd, hx, hy, hlen, _⟩ := setup_frame s0 s rs rs1 h
  refine ⟨Or.inr (Or.inr (Or.inl hd)), fun _ => ⟨by omega, ?_, ?_, ?_, ?_, ?_⟩⟩
  · rw [hlen]
    decide
  · rw [hx, hy]
    unfold Inside
    decide
  · intro k hk
    omega
  · intro k hk
    omega
  · intro j k _ hk
    omega

theorem logic_direction (s : State) (rs : List Nat) (s1 : State) (rs1 : List Nat)
    (h : logic s rs = some (s1, rs1)) : s1.direction = s.direction := by
  cases hg : s.gameover with
  | true =>
    rw [logic_gameover s rs hg] at h
    simp only [Option.some.injEq, Prod.mk.injEq] at h
    rw [← h.1]
  | false =>
    cases hg1 : s1.gameover with
    | false =>
      obtain ⟨_, _, f, hf, hs1⟩ := logic_live s rs s1 rs1 h hg hg1
      obtain ⟨_, _, _, _, _, fd, _⟩ := fruit_collision_frame _ _ _ _ hf
      obtain ⟨_, _, _, _, _, _, _, ud⟩ := update_tail_frame f s.x s.y
      obtain ⟨_, _, _, _, _, _, _, md⟩ := move_head_frame s
      rw [hs1, ud, fd, md]
    | true =>
      unfold logic at h
      have hg0 : ¬(s.gameover = true) := by simp [hg]
      rw [if_neg hg0] at h
      simp only at h
      obtain ⟨_, _, _, _, _, _, _, md⟩ := move_head_frame s
      split at h
      · simp only [Option.some.injEq, Prod.mk.injEq] at h
        rw [← h.1]
        exact md
      · split at h
        · simp only [Option.some.injEq, Prod.mk.injEq] at h
          rw [← h.1]
          exact md
        · cases hf : fruit_collision (move_head s) rs with
          | none => rw [hf] at h; simp at h
          | some p =>
            obtain ⟨f, r⟩ := p
            rw [hf] at h
            simp only [Option.some.injEq, Prod.mk.injEq] at h
            obtain ⟨_, _, _, _, _, fd, _⟩ := fruit_collision_frame _ _ _ _ hf
            obtain ⟨_, _, _, _, _, _, _, ud⟩ := update_tail_frame f s.x s.y
            rw [← h.1, ud, fd, md]

theorem Inv_tick (s s1 : State) (ch : Int) (rs rs1 : List Nat) (hi : Inv s)
    (h : tick ch s rs = some (s1, rs1)) : Inv s1 := by
  unfold tick at h
  obtain ⟨hd, hlive⟩ := hi
  have hd1 := input_direction_ok ch s hd
  refine ⟨by rw [logic_direction _ _ _ _ h]; exact hd1, fun hg1 => ?_⟩
  cases hgi : (input ch s).gameover with
  | true =>
    rw [logic_gameover _ rs hgi] at h
    simp only [Option.some.injEq, Prod.mk.injEq] at h
    rw [← h.1, hgi] at hg1
    exact absurd hg1 (by decide)
  | false =>
    have hg : s.gameover = false := by
      rw [input_gameover] at hgi
      split at hgi
      · exact absurd hgi (by decide)
      · exact hgi
    obtain ⟨hl0, hl1, hok⟩ := hlive hg
    obtain ⟨iX, iY, ilen, _, ix, iy, _, _⟩ := input_frame ch s
    have hoki : SnakeOK (input ch s) := by
      unfold SnakeOK
      rw [iX, iY, ilen, ix, iy]
      exact hok
    exact logic_preserves_SnakeOK (input ch s) rs s1 rs1 hd1 (by rw [ilen]; exact ⟨hl0, hl1⟩)
      hoki hgi h hg1

theorem Inv_reachable (s : State) (h : Reachable s) : Inv s := by
  induction h with
  | setup s0 s rs rs1 h => exact Inv_setup s0 s rs rs1 h
  | tick s s1 ch rs rs1 _ h ih => exact Inv_tick s s1 ch rs rs1 ih h

/-- The two ways a call of `logic` on a live state returns: at a collision,
with the moved head and `gameover` set, having drawn no sample; or past both
collision tests, through the fruit block and the tail update. -/
theorem logic_cases (s : State) (rs : List Nat) (s1 : State) (rs1 : List Nat)
    (h : logic s rs = some (s1, rs1)) (hg : s.gameover = false) :
    ((wall_collision (move_head s) = true ∨ self_collision (move_head s) = true) ∧
        s1 = { move_head s with gameover := true } ∧ rs1 = rs) ∨
      (wall_collision (move_head s) = false ∧ self_collision (move_head s) = false ∧
        ∃ f, fruit_collision (move_head s) rs = some (f, rs1) ∧
          s1 = update_tail f s.x s.y) := by
  unfold logic at h
  have hg0 : ¬(s.gameover = true) := by simp [hg]
  rw [if_neg hg0] at h
  simp only at h
  by_cases hw : wall_collision (move_head s) = true
  · rw [if_pos hw] at h
    simp only [Option.some.injEq, Prod.mk.injEq] at h
    exact Or.inl ⟨Or.inl hw, h.1.symm, h.2.symm⟩
  · rw [if_neg hw] at h
    by_cases hs : self_collision (move_head s) = true
    · rw [if_pos hs] at h
      simp only [Option.some.injEq, Prod.mk.injEq] at h
      exact Or.inl ⟨Or.inr hs, h.1.symm, h.2.symm⟩
    · rw [if_neg hs] at h
      refine Or.inr ⟨by simpa using hw, by simpa using hs, ?_⟩
      cases hf : fruit_collision (move_head s) rs with
      | none => rw [hf] at h; simp at h
      | some p =>
        obtain ⟨f, r⟩ := p
        rw [hf] at h
        simp only [Option.some.injEq, Prod.mk.injEq] at h
        exact ⟨f, by rw [h.2], h.1.symm⟩

/-- The cell stored by a returning `generate_fruit` is strictly inside the
border and off the snake as it stood at the call. -/
theorem generate_fruit_inside_free (s : State) (rs : List Nat) (s1 : State)
    (rs1 : List Nat) (h : generate_fruit s rs = some (s1, rs1)) :
    Inside s1.fruitx s1.fruity ∧ Free s s1.fruitx s1.fruity := by
  obtain ⟨n, _, _, hs1, hfree, _⟩ := generate_fruit_some s rs s1 rs1 h
  have hF : Free s s1.fruitx s1.fruity := by
    have := (on_snake_eq_false s1).mp hfree
    rw [hs1] at this ⊢
    exact this
  have hx : s1.fruitx = ((rs.getD (2 * n) 0 : Nat) : Int) % (WIDTH - 2) + 1 := by
    rw [hs1]
    rfl
  have hy : s1.fruity = ((rs.getD (2 * n + 1) 0 : Nat) : Int) % (HEIGHT - 2) + 1 := by
    rw [hs1]
    rfl
  refine ⟨?_, hF⟩
  unfold Inside
  rw [hx, hy]
  unfold WIDTH HEIGHT
  omega

/-- A returning `logic` on a live state leaves the head at the moved position,
whichever way it returns. -/
theorem logic_head (s : State) (rs : List Nat) (s1 : State) (rs1 : List Nat)
    (h : logic s rs = some (s1, rs1)) (hg : s.gameover = false) :
    s1.x = (move_head s).x ∧ s1.y = (move_head s).y := by
  rcases logic_cases s rs s1 rs1 h hg with ⟨_, hs1, _⟩ | ⟨_, _, f, hfc, hs1⟩
  · rw [hs1]
    exact ⟨rfl, rfl⟩
  · obtain ⟨_, _, fx, fy, _⟩ := fruit_collision_frame _ _ _ _ hfc
    obtain ⟨_, _, _, ux, uy, _⟩ := update_tail_frame f s.x s.y
    rw [hs1, ux, uy, fx, fy]
    exact ⟨rfl, rfl⟩

/-- With no key pending, `input` changes nothing. -/
theorem input_no_key (s : State) : input NO_KEY s = s := by
  have hnd : new_direction NO_KEY s.direction = s.direction := by
    unfold new_direction NO_KEY
    simp
  unfold input
  simp only [hnd]
  have hq : ¬(NO_KEY = 120 ∨ NO_KEY = 88) := by decide
  rw [if_neg hq]
  split <;> rfl

/-! ## The claims -/

/-- C1: in every state reachable from `setup()` by ticks in which `gameover` is
false, the head lies strictly inside the wall border (1 ≤ x ≤ 38, 1 ≤ y ≤ 18),
so does every body cell of index below `snakeTailLen`, no body cell equals the
head, and no two body cells of different index are equal. -/
theorem C1_snake_cells_distinct_inside (s : State) (hr : Reachable s)
    (hg : s.gameover = false) :
    (1 ≤ s.x ∧ s.x ≤ 38 ∧ 1 ≤ s.y ∧ s.y ≤ 18) ∧
    (∀ k : Nat, (k : Int) < s.snakeTailLen →
      1 ≤ s.snakeTailX k ∧ s.snakeTailX k ≤ 38 ∧ 1 ≤ s.snakeTailY k ∧ s.snakeTailY k ≤ 18) ∧
    (∀ k : Nat, (k : Int) < s.snakeTailLen →
      ¬(s.snakeTailX k = s.x ∧ s.snakeTailY k = s.y)) ∧
    (∀ j k : Nat, j ≠ k → (j : Int) < s.snakeTailLen → (k : Int) < s.snakeTailLen →
      ¬(s.snakeTailX j = s.snakeTailX k ∧ s.snakeTailY j = s.snakeTailY k)) := by
  obtain ⟨_, hlive⟩ := Inv_reachable s hr
  obtain ⟨_, _, hin, hbody, hhead, hpair⟩ := hlive hg
  refine ⟨hin, hbody, hhead, ?_⟩
  intro j k hjk hj hk hp
  rcases Nat.lt_or_gt_of_ne hjk with hlt | hgt
  · exact hpair j k hlt hk hp
  · exact hpair k j hgt hj ⟨hp.1.symm, hp.2.symm⟩

/-- C1 at the state reached by `setup()` and one tick that eats the fruit: head
(21,10), one body cell (20,10). -/
theorem C1_snake_cells_distinct_inside_witness :
    Reachable exGrown ∧ exGrown.gameover = false ∧
    ((1 ≤ exGrown.x ∧ exGrown.x ≤ 38 ∧ 1 ≤ exGrown.y ∧ exGrown.y ≤ 18) ∧
    (∀ k : Nat, (k : Int) < exGrown.snakeTailLen →
      1 ≤ exGrown.snakeTailX k ∧ exGrown.snakeTailX k ≤ 38 ∧
        1 ≤ exGrown.snakeTailY k ∧ exGrown.snakeTailY k ≤ 18) ∧
    (∀ k : Nat, (k : Int) < exGrown.snakeTailLen →
      ¬(exGrown.snakeTailX k = exGrown.x ∧ exGrown.snakeTailY k = exGrown.y)) ∧
    (∀ j k : Nat, j ≠ k → (j : Int) < exGrown.snakeTailLen →
      (k : Int) < exGrown.snakeTailLen →
      ¬(exGrown.snakeTailX j = exGrown.snakeTailX k ∧
        exGrown.snakeTailY j = exGrown.snakeTailY k))) :=
  ⟨Reachable.tick exSetup exGrown NO_KEY [5, 5] []
      (Reachable.setup zeroState exSetup [20, 9] [] rfl) rfl,
    rfl,
    C1_snake_cells_distinct_inside exGrown
      (Reachable.tick exSetup exGrown NO_KEY [5, 5] []
        (Reachable.setup zeroState exSetup [20, 9] [] rfl) rfl) rfl⟩

/-- C2 fails on the code: after `setup()` with samples 20, 9 and one tick with no
key and samples 19, 9, the tick in which the head ate the fruit ends with
`gameover` false and with the fruit on body cell 0.  `generate_fruit` ran
before the tail shift wrote the previous head position (20,10) into segment 0,
and compared the candidate with the slot's old content (0,0) instead. -/
theorem C2_fruit_on_segment_zero :
    setup zeroState [20, 9] = some (exSetup, []) ∧
    tick NO_KEY exSetup [19, 9] = some (exFruitOnTail, []) ∧
    Reachable exFruitOnTail ∧
    exFruitOnTail.gameover = false ∧
    exFruitOnTail.score = exSetup.score + 10 ∧
    (0 : Int) < exFruitOnTail.snakeTailLen ∧
    exFruitOnTail.fruitx = exFruitOnTail.snakeTailX 0 ∧
    exFruitOnTail.fruity = exFruitOnTail.snakeTailY 0 :=
  ⟨rfl, rfl,
    Reachable.tick exSetup exFruitOnTail NO_KEY [19, 9] []
      (Reachable.setup zeroState exSetup [20, 9] [] rfl) rfl,
    rfl, rfl, by decide, rfl, rfl⟩

/-- C3: when `generate_fruit()` returns on a state with
0 ≤ snakeTailLen ≤ MAX_TAIL_LEN, the fruit cell lies in [1, WIDTH-2] x
[1, HEIGHT-2], differs from the head and from every body cell of index below
`snakeTailLen` (as they stand at the call), and is the first sampled candidate
with these properties: it is candidate `n` of the stream, the samples after it
are left unread, and each earlier candidate lay on the head or on a body cell. -/
theorem C3_generate_fruit_first_free (s : State) (rs : List Nat) (s1 : State)
    (rs1 : List Nat)
    (_hlen : 0 ≤ s.snakeTailLen ∧ s.snakeTailLen ≤ MAX_TAIL_LEN)
    (h : generate_fruit s rs = some (s1, rs1)) :
    (1 ≤ s1.fruitx ∧ s1.fruitx ≤ WIDTH - 2 ∧ 1 ≤ s1.fruity ∧ s1.fruity ≤ HEIGHT - 2) ∧
    ¬(s1.fruitx = s.x ∧ s1.fruity = s.y) ∧
    (∀ k : Nat, (k : Int) < s.snakeTailLen →
      ¬(s1.fruitx = s.snakeTailX k ∧ s1.fruity = s.snakeTailY k)) ∧
    ∃ n : Nat, 2 * n + 2 ≤ rs.length ∧ rs1 = rs.drop (2 * n + 2) ∧
      (s1.fruitx, s1.fruity) = candidate rs n ∧
      ∀ i, i < n → ¬Free s (candidate rs i).1 (candidate rs i).2 := by
  obtain ⟨n, hn, hdrop, hs1, hfree, hrej⟩ := generate_fruit_some s rs s1 rs1 h
  have hF : Free s s1.fruitx s1.fruity := by
    have := (on_snake_eq_false s1).mp hfree
    rw [hs1] at this ⊢
    exact this
  have hx : s1.fruitx = ((rs.getD (2 * n) 0 : Nat) : Int) % (WIDTH - 2) + 1 := by
    rw [hs1]
    rfl
  have hy : s1.fruity = ((rs.getD (2 * n + 1) 0 : Nat) : Int) % (HEIGHT - 2) + 1 := by
    rw [hs1]
    rfl
  refine ⟨?_, hF.1, hF.2, n, hn, hdrop, ?_, ?_⟩
  · rw [hx, hy]
    unfold WIDTH HEIGHT
    omega
  · rw [hx, hy]
    rfl
  · intro i hi hfi
    have h1 := hrej i hi
    have h2 : on_snake (sample_fruit s (rs.getD (2 * i) 0) (rs.getD (2 * i + 1) 0)) = false :=
      (on_snake_eq_false _).mpr hfi
    rw [h1] at h2
    exact absurd h2 (by decide)

/-- C3 on the samples 19, 9, 5, 5 with the head at (20,10): the candidate
(20,10) is rejected and the fruit becomes (6,6). -/
theorem C3_generate_fruit_first_free_witness :
    (0 ≤ exSetup.snakeTailLen ∧ exSetup.snakeTailLen ≤ MAX_TAIL_LEN) ∧
    generate_fruit exSetup [19, 9, 5, 5] = some (exSetupFar, []) ∧
    ((1 ≤ exSetupFar.fruitx ∧ exSetupFar.fruitx ≤ WIDTH - 2 ∧
        1 ≤ exSetupFar.fruity ∧ exSetupFar.fruity ≤ HEIGHT - 2) ∧
      ¬(exSetupFar.fruitx = exSetup.x ∧ exSetupFar.fruity = exSetup.y) ∧
      (∀ k : Nat, (k : Int) < exSetup.snakeTailLen →
        ¬(exSetupFar.fruitx = exSetup.snakeTailX k ∧
          exSetupFar.fruity = exSetup.snakeTailY k)) ∧
      ∃ n : Nat, 2 * n + 2 ≤ [19, 9, 5, 5].length ∧
        ([] : List Nat) = [19, 9, 5, 5].drop (2 * n + 2) ∧
        (exSetupFar.fruitx, exSetupFar.fruity) = candidate [19, 9, 5, 5] n ∧
        ∀ i, i < n →
          ¬Free exSetup (candidate [19, 9, 5, 5] i).1 (candidate [19, 9, 5, 5] i).2) :=
  ⟨by decide, rfl,
    C3_generate_fruit_first_free exSetup [19, 9, 5, 5] exSetupFar [] (by decide) rfl⟩

/-- C4: reversal law of `input()`.  When the key requests the direction `r`:
if `r` is the reverse of the current direction, the direction is unchanged;
otherwise (for any current direction, 0 included) the direction becomes `r`. -/
theorem C4_reversal_law (s : State) (ch r : Int) (hreq : requests ch r) :
    (opposite s.direction r → (input ch s).direction = s.direction) ∧
    (¬opposite s.direction r → (input ch s).direction = r) := by
  have hnd : new_direction ch s.direction = r := by
    unfold requests at hreq
    unfold new_direction
    split_ifs <;> omega
  rw [input_direction, hnd]
  unfold opposite
  constructor
  · intro ho
    split_ifs with hc
    · omega
    · rfl
  · intro ho
    unfold requests at hreq
    split_ifs with hc
    · rfl
    · omega

/-- C4 with the snake moving right (3) and the key `a` (97) requesting left (1):
the direction stays 3; and on the key `w` (119) it becomes up (4). -/
theorem C4_reversal_law_witness :
    (requests 97 1 ∧ opposite exSetup.direction 1 ∧
      (input 97 exSetup).direction = exSetup.direction) ∧
    (requests 119 4 ∧ ¬opposite exSetup.direction 4 ∧
      (input 119 exSetup).direction = 4) :=
  ⟨⟨by unfold requests; decide, by unfold opposite; decide,
      (C4_reversal_law exSetup 97 1 (by unfold requests; decide)).1
        (by unfold opposite; decide)⟩,
    ⟨by unfold requests; decide, by unfold opposite; decide,
      (C4_reversal_law exSetup 119 4 (by unfold requests; decide)).2
        (by unfold opposite; decide)⟩⟩

/-- C6: terminated is absorbing.  On a state with `gameover` true, one tick
(for any key and any samples) returns without drawing a sample and leaves
`gameover` true and the head, `snakeTailLen`, both tail arrays, the fruit cell
and `score` unchanged. -/
theorem C6_terminated_absorbing (s : State) (ch : Int) (rs : List Nat)
    (hg : s.gameover = true) :
    ∃ s1, tick ch s rs = some (s1, rs) ∧ s1.gameover = true ∧
      s1.x = s.x ∧ s1.y = s.y ∧ s1.snakeTailLen = s.snakeTailLen ∧
      s1.snakeTailX = s.snakeTailX ∧ s1.snakeTailY = s.snakeTailY ∧
      s1.fruitx = s.fruitx ∧ s1.fruity = s.fruity ∧ s1.score = s.score := by
  have hgi : (input ch s).gameover = true := by
    rw [input_gameover, hg]
    split <;> rfl
  obtain ⟨iX, iY, ilen, isc, ix, iy, ifx, ify⟩ := input_frame ch s
  exact ⟨input ch s, logic_gameover _ rs hgi, hgi, ix, iy, ilen, iX, iY, ifx, ify, isc⟩

/-- C6 at a terminated state, with the key `d` and two pending samples. -/
theorem C6_terminated_absorbing_witness :
    exOver.gameover = true ∧
    ∃ s1, tick 100 exOver [3, 4] = some (s1, [3, 4]) ∧ s1.gameover = true ∧
      s1.x = exOver.x ∧ s1.y = exOver.y ∧ s1.snakeTailLen = exOver.snakeTailLen ∧
      s1.snakeTailX = exOver.snakeTailX ∧ s1.snakeTailY = exOver.snakeTailY ∧
      s1.fruitx = exOver.fruitx ∧ s1.fruity = exOver.fruity ∧ s1.score = exOver.score :=
  ⟨rfl, C6_terminated_absorbing exOver 100 [3, 4] rfl⟩

/-- C7: wall collision.  On a live state whose moved head is not strictly inside
the border (x ≤ 0 or x ≥ WIDTH-1 or y ≤ 0 or y ≥ HEIGHT-1), `logic()` returns
without drawing a sample, with `gameover` true, the head at the moved (invalid)
position, and `snakeTailLen`, both tail arrays, the fruit cell and `score`
unchanged. -/
theorem C7_wall_collision (s : State) (rs : List Nat) (hg : s.gameover = false)
    (hw : (move_head s).x ≤ 0 ∨ (move_head s).x ≥ WIDTH - 1 ∨
      (move_head s).y ≤ 0 ∨ (move_head s).y ≥ HEIGHT - 1) :
    ∃ s1, logic s rs = some (s1, rs) ∧ s1.gameover = true ∧
      s1.x = (move_head s).x ∧ s1.y = (move_head s).y ∧
      s1.snakeTailLen = s.snakeTailLen ∧
      s1.snakeTailX = s.snakeTailX ∧ s1.snakeTailY = s.snakeTailY ∧
      s1.fruitx = s.fruitx ∧ s1.fruity = s.fruity ∧ s1.score = s.score := by
  obtain ⟨mX, mY, mlen, _, msc, mfx, mfy, _⟩ := move_head_frame s
  have hwc : wall_collision (move_head s) = true := by
    unfold wall_collision
    exact decide_eq_true hw
  refine ⟨{ move_head s with gameover := true }, ?_, rfl, rfl, rfl, mlen, mX, mY, mfx, mfy, msc⟩
  unfold logic
  have hg0 : ¬(s.gameover = true) := by simp [hg]
  rw [if_neg hg0]
  simp only
  rw [if_pos hwc]

/-- C7 at the head (1,10) moving left: the tick ends with x = 0 and `gameover`
true. -/
theorem C7_wall_collision_witness :
    exAtWall.gameover = false ∧ exAtWall.x = 1 ∧ exAtWall.y = 10 ∧
    exAtWall.direction = 1 ∧ (move_head exAtWall).x = 0 ∧
    ∃ s1, logic exAtWall [] = some (s1, []) ∧ s1.gameover = true ∧
      s1.x = (move_head exAtWall).x ∧ s1.y = (move_head exAtWall).y ∧
      s1.snakeTailLen = exAtWall.snakeTailLen ∧
      s1.snakeTailX = exAtWall.snakeTailX ∧ s1.snakeTailY = exAtWall.snakeTailY ∧
      s1.fruitx = exAtWall.fruitx ∧ s1.fruity = exAtWall.fruity ∧
      s1.score = exAtWall.score :=
  ⟨rfl, rfl, rfl, rfl, rfl, C7_wall_collision exAtWall [] rfl (Or.inl (by decide))⟩

/-- C8: self collision.  On a live state whose moved head is strictly inside the
border and equals a body cell of index below `snakeTailLen`, `logic()` returns
without drawing a sample (no fruit relocation), with `gameover` true, the head
at the colliding cell, and `snakeTailLen`, both tail arrays (no shift), `score`
and the fruit cell unchanged. -/
theorem C8_self_collision (s : State) (rs : List Nat) (hg : s.gameover = false)
    (hin : 1 ≤ (move_head s).x ∧ (move_head s).x ≤ WIDTH - 2 ∧
      1 ≤ (move_head s).y ∧ (move_head s).y ≤ HEIGHT - 2)
    (hhit : ∃ i : Nat, (i : Int) < s.snakeTailLen ∧
      s.snakeTailX i = (move_head s).x ∧ s.snakeTailY i = (move_head s).y) :
    ∃ s1, logic s rs = some (s1, rs) ∧ s1.gameover = true ∧
      s1.x = (move_head s).x ∧ s1.y = (move_head s).y ∧
      s1.snakeTailLen = s.snakeTailLen ∧
      s1.snakeTailX = s.snakeTailX ∧ s1.snakeTailY = s.snakeTailY ∧
      s1.fruitx = s.fruitx ∧ s1.fruity = s.fruity ∧ s1.score = s.score := by
  obtain ⟨mX, mY, mlen, _, msc, mfx, mfy, _⟩ := move_head_frame s
  have hwc : ¬(wall_collision (move_head s) = true) := by
    rw [(wall_collision_eq_false _).mpr hin]
    decide
  have hsc : self_collision (move_head s) = true := by
    cases hc : self_collision (move_head s) with
    | true => rfl
    | false =>
      rw [self_collision_eq_false, mX, mY, mlen] at hc
      obtain ⟨i, hi, hp⟩ := hhit
      exact absurd hp (hc i hi)
  refine ⟨{ move_head s with gameover := true }, ?_, rfl, rfl, rfl, mlen, mX, mY, mfx, mfy, msc⟩
  unfold logic
  have hg0 : ¬(s.gameover = true) := by simp [hg]
  rw [if_neg hg0]
  simp only
  rw [if_neg hwc, if_pos hsc]

/-- C8 at a snake with head (20,10) moving right onto its body cell 1 at (21,10). -/
theorem C8_self_collision_witness :
    exBite.gameover = false ∧
    ∃ s1, logic exBite [7, 7] = some (s1, [7, 7]) ∧ s1.gameover = true ∧
      s1.x = 21 ∧ s1.y = 10 ∧
      s1.x = (move_head exBite).x ∧ s1.y = (move_head exBite).y ∧
      s1.snakeTailLen = exBite.snakeTailLen ∧
      s1.snakeTailX = exBite.snakeTailX ∧ s1.snakeTailY = exBite.snakeTailY ∧
      s1.fruitx = exBite.fruitx ∧ s1.fruity = exBite.fruity ∧
      s1.score = exBite.score := by
  obtain ⟨s1, h1, h2, h3, h4, h5⟩ :=
    C8_self_collision exBite [7, 7] rfl (by decide) ⟨1, by decide, rfl, rfl⟩
  exact ⟨rfl, s1, h1, h2, h3.trans rfl, h4.trans rfl, h3, h4, h5⟩

/-- C9: after a returning `setup()`, score = 0, `gameover` is false, the head is
(WIDTH/2, HEIGHT/2) = (20,10), `snakeTailLen` = 0, and the fruit lies in
[1,38] x [1,19] (indeed in [1,38] x [1,18]) and is not the cell (20,10). -/
theorem C9_setup_postcondition (s0 s : State) (rs rs1 : List Nat)
    (h : setup s0 rs = some (s, rs1)) :
    s.score = 0 ∧ s.gameover = false ∧
    s.x = WIDTH / 2 ∧ s.y = HEIGHT / 2 ∧ s.x = 20 ∧ s.y = 10 ∧
    s.snakeTailLen = 0 ∧
    (1 ≤ s.fruitx ∧ s.fruitx ≤ 38 ∧ 1 ≤ s.fruity ∧ s.fruity ≤ 19) ∧
    s.fruity ≤ 18 ∧
    ¬(s.fruitx = 20 ∧ s.fruity = 10) := by
  obtain ⟨hg, _, hx, hy, hlen, hsc, _⟩ := setup_frame s0 s rs rs1 h
  unfold setup at h
  obtain ⟨hin, hfree, _⟩ := generate_fruit_inside_free _ rs s rs1 h
  unfold Inside WIDTH HEIGHT at hin
  refine ⟨hsc, hg, hx, hy, hx, hy, hlen, ⟨by omega, by omega, by omega, by omega⟩,
    by omega, hfree⟩

/-- C9 on zeroed globals with the samples 19, 9, 5, 5: the candidate (20,10) is
rejected, the fruit is placed at (6,6). -/
theorem C9_setup_postcondition_witness :
    setup zeroState [19, 9, 5, 5] = some (exSetupFar, []) ∧
    exSetupFar.score = 0 ∧ exSetupFar.gameover = false ∧
    exSetupFar.x = WIDTH / 2 ∧ exSetupFar.y = HEIGHT / 2 ∧
    exSetupFar.x = 20 ∧ exSetupFar.y = 10 ∧
    exSetupFar.snakeTailLen = 0 ∧
    (1 ≤ exSetupFar.fruitx ∧ exSetupFar.fruitx ≤ 38 ∧
      1 ≤ exSetupFar.fruity ∧ exSetupFar.fruity ≤ 19) ∧
    exSetupFar.fruity ≤ 18 ∧
    ¬(exSetupFar.fruitx = 20 ∧ exSetupFar.fruity = 10) :=
  ⟨rfl, C9_setup_postcondition zeroState exSetupFar [19, 9, 5, 5] [] rfl⟩

/-- C10 fails on the code: `setup()` sets the direction to 3 (right), not 0, and
the first tick with no key pressed moves the head from (20,10) to (21,10). -/
theorem C10_setup_direction_is_not_none :
    setup zeroState [5, 5] = some (exSetupFar, []) ∧
    exSetupFar.direction = 3 ∧ exSetupFar.direction ≠ 0 ∧
    tick NO_KEY exSetupFar [] = some (exMoved, []) ∧
    exMoved.x = 21 ∧ exMoved.y = 10 ∧ ¬(exMoved.x = 20 ∧ exMoved.y = 10) :=
  ⟨rfl, rfl, by decide, rfl, rfl, rfl, by decide⟩

/-- C10 as amended: after a returning `setup()` the direction is 3 (right), so
that a first tick with no key pressed, when it returns, leaves the head at
(21,10), one cell right of (20,10); and it does return, on any samples, when the
fruit is not at (21,10). -/
theorem C10_setup_direction_right (s0 s : State) (rs rs1 : List Nat)
    (h : setup s0 rs = some (s, rs1)) :
    s.direction = 3 ∧
    (∀ (rs2 : List Nat) (s2 : State) (rs3 : List Nat),
      tick NO_KEY s rs2 = some (s2, rs3) → s2.x = 21 ∧ s2.y = 10) ∧
    (¬(s.fruitx = 21 ∧ s.fruity = 10) →
      ∀ rs2 : List Nat, ∃ s2, tick NO_KEY s rs2 = some (s2, rs2) ∧ s2.x = 21 ∧ s2.y = 10) := by
  obtain ⟨hg, hd, hx, hy, hlen, _⟩ := setup_frame s0 s rs rs1 h
  have hm := move_head_xy s
  rw [hd] at hm
  simp only [show ¬((3 : Int) = 1) by decide, show ¬((3 : Int) = 2) by decide,
    if_false, if_true, Prod.mk.injEq] at hm
  obtain ⟨hmx, hmy⟩ := hm
  rw [hx] at hmx
  rw [hy] at hmy
  obtain ⟨_, _, mlen, _, _, mfx, mfy, _⟩ := move_head_frame s
  refine ⟨hd, ?_, ?_⟩
  · intro rs2 s2 rs3 ht
    unfold tick at ht
    rw [input_no_key] at ht
    obtain ⟨h1, h2⟩ := logic_head s rs2 s2 rs3 ht hg
    rw [h1, h2, hmx, hmy]
    exact ⟨rfl, rfl⟩
  · intro hfar rs2
    refine ⟨move_head s, ?_, hmx, hmy⟩
    unfold tick
    rw [input_no_key]
    have hw : ¬(wall_collision (move_head s) = true) := by
      rw [(wall_collision_eq_false _).mpr (by unfold Inside WIDTH HEIGHT; omega)]
      decide
    have hs : ¬(self_collision (move_head s) = true) := by
      have : self_collision (move_head s) = false := by
        rw [self_collision_eq_false]
        intro k hk
        omega
      rw [this]
      decide
    have hfc : fruit_collision (move_head s) rs2 = some (move_head s, rs2) := by
      unfold fruit_collision
      rw [if_neg (by rw [mfx, mfy, hmx, hmy]; exact fun hp => hfar ⟨hp.1.symm, hp.2.symm⟩)]
    have hu : update_tail (move_head s) s.x s.y = move_head s := by
      unfold update_tail
      rw [if_neg (by omega)]
    unfold logic
    have hg0 : ¬(s.gameover = true) := by simp [hg]
    rw [if_neg hg0]
    simp only
    rw [if_neg hw, if_neg hs, hfc]
    simp only
    rw [hu]

/-- C10 as amended, on zeroed globals with the samples 5, 5: direction 3, and
the first tick with no key pressed ends with the head at (21,10). -/
theorem C10_setup_direction_right_witness :
    setup zeroState [5, 5] = some (exSetupFar, []) ∧
    exSetupFar.direction = 3 ∧
    (∀ (rs2 : List Nat) (s2 : State) (rs3 : List Nat),
      tick NO_KEY exSetupFar rs2 = some (s2, rs3) → s2.x = 21 ∧ s2.y = 10) ∧
    (¬(exSetupFar.fruitx = 21 ∧ exSetupFar.fruity = 10) →
      ∀ rs2 : List Nat,
        ∃ s2, tick NO_KEY exSetupFar rs2 = some (s2, rs2) ∧ s2.x = 21 ∧ s2.y = 10) :=
  ⟨rfl, C10_setup_direction_right zeroState exSetupFar [5, 5] [] rfl⟩

/-! ## Further lemmas on `input`, `logic` and runs -/

/-- A key code that is none of a, A, s, S, d, D, w, W, x, X makes `input`
change nothing. -/
theorem input_unrecognized (ch : Int) (s : State)
    (hk : ch ≠ 97 ∧ ch ≠ 65 ∧ ch ≠ 115 ∧ ch ≠ 83 ∧ ch ≠ 100 ∧ ch ≠ 68 ∧
      ch ≠ 119 ∧ ch ≠ 87 ∧ ch ≠ 120 ∧ ch ≠ 88) :
    input ch s = s := by
  have hnd : new_direction ch s.direction = s.direction := by
    unfold new_direction
    rw [if_neg (by omega), if_neg (by omega), if_neg (by omega), if_neg (by omega)]
  unfold input
  simp only [hnd]
  have hq : ¬(ch = 120 ∨ ch = 88) := by omega
  rw [if_neg hq]
  split <;> rfl

/-- The quit keys x and X make `input` set `gameover` and change nothing else. -/
theorem input_quit (ch : Int) (s : State) (hq : ch = 120 ∨ ch = 88) :
    input ch s = { s with gameover := true } := by
  have hnd : new_direction ch s.direction = s.direction := by
    unfold new_direction
    rw [if_neg (by omega), if_neg (by omega), if_neg (by omega), if_neg (by omega)]
  unfold input
  simp only [hnd]
  rw [if_pos hq]
  split <;> rfl

/-- The tail, head, direction and length after a call of `logic` that starts
and ends with the game live. -/
theorem logic_live_tail (s : State) (rs : List Nat) (s1 : State) (rs1 : List Nat)
    (h : logic s rs = some (s1, rs1)) (hg : s.gameover = false)
    (hg1 : s1.gameover = false) :
    (∀ j : Nat, (j : Int) < s1.snakeTailLen →
      s1.snakeTailX j = (if j = 0 then s.x else s.snakeTailX (j - 1)) ∧
      s1.snakeTailY j = (if j = 0 then s.y else s.snakeTailY (j - 1))) ∧
    s1.x = (move_head s).x ∧ s1.y = (move_head s).y ∧
    s1.direction = s.direction ∧
    (s1.snakeTailLen = s.snakeTailLen ∨
      (s.snakeTailLen < MAX_TAIL_LEN ∧ s1.snakeTailLen = s.snakeTailLen + 1 ∧
        (move_head s).x = s.fruitx ∧ (move_head s).y = s.fruity)) := by
  obtain ⟨_, _, f, hf, hs1⟩ := logic_live s rs s1 rs1 h hg hg1
  obtain ⟨fX, fY, fx, fy, _, _, flen⟩ := fruit_collision_frame _ _ _ _ hf
  obtain ⟨mX, mY, mlen, _, _, mfx, mfy, _⟩ := move_head_frame s
  obtain ⟨ulen, _, _, ux, uy, _⟩ := update_tail_frame f s.x s.y
  have hX := update_tail_X f s.x s.y
  have hY := update_tail_Y f s.x s.y
  rw [mlen, mfx, mfy] at flen
  have hd := logic_direction s rs s1 rs1 h
  subst hs1
  refine ⟨?_, by rw [ux, fx], by rw [uy, fy], hd, by rw [ulen]; exact flen⟩
  intro j hj
  rw [ulen] at hj
  rw [hX j hj, hY j hj, fX, fY, mX, mY]
  exact ⟨rfl, rfl⟩

/-- The score and the tail length after any returning call of `logic`: 10 more
exactly when the head ate the fruit, one more segment when it did so below the
maximum length. -/
theorem logic_score_len (s : State) (rs : List Nat) (s1 : State) (rs1 : List Nat)
    (h : logic s rs = some (s1, rs1)) :
    s1.score = s.score + (if eats s = true then 10 else 0) ∧
    s1.snakeTailLen =
      (if eats s = true ∧ s.snakeTailLen < MAX_TAIL_LEN then s.snakeTailLen + 1
       else s.snakeTailLen) := by
  cases hg : s.gameover with
  | true =>
    have he : eats s = false := by
      unfold eats
      rw [hg]
      rfl
    rw [logic_gameover s rs hg] at h
    simp only [Option.some.injEq, Prod.mk.injEq] at h
    rw [← h.1, he]
    simp
  | false =>
    obtain ⟨_, _, mlen, _, msc, _, _, _⟩ := move_head_frame s
    rcases logic_cases s rs s1 rs1 h hg with ⟨hc, hs1, _⟩ | ⟨hw, hsc, f, hfc, hs1⟩
    · have he : eats s = false := by
        unfold eats
        rcases hc with hc | hc <;> simp [hc]
      rw [hs1, he]
      simp only [Bool.false_eq_true, if_false, false_and, add_zero]
      exact ⟨msc, mlen⟩
    · obtain ⟨ulen, _, usc, _⟩ := update_tail_frame f s.x s.y
      rw [hs1, ulen, usc]
      rcases fruit_collision_some _ rs f rs1 hfc with ⟨hno, hfm, _⟩ | ⟨hyes, hgf⟩
      · have he : eats s = false := by
          unfold eats
          simp [hno]
        rw [hfm, he]
        simp only [Bool.false_eq_true, if_false, false_and, add_zero]
        exact ⟨msc, mlen⟩
      · have he : eats s = true := by
          unfold eats
          simp [hg, hw, hsc, hyes]
        have hfr := generate_fruit_frame _ rs f rs1 hgf
        have h1 := congrArg State.score hfr
        have h2 := congrArg State.snakeTailLen hfr
        simp only at h1 h2
        rw [h1, h2, he, msc, mlen]
        simp

/-- A tick that ends with the game live started with the game live and met no
quit key. -/
theorem tick_live (s s1 : State) (ch : Int) (rs rs1 : List Nat)
    (h : tick ch s rs = some (s1, rs1)) (hg1 : s1.gameover = false) :
    s.gameover = false ∧ (input ch s).gameover = false := by
  unfold tick at h
  cases hgi : (input ch s).gameover with
  | true =>
    rw [logic_gameover _ rs hgi] at h
    simp only [Option.some.injEq, Prod.mk.injEq] at h
    rw [← h.1, hgi] at hg1
    exact absurd hg1 (by decide)
  | false =>
    refine ⟨?_, rfl⟩
    rw [input_gameover] at hgi
    split at hgi
    · exact absurd hgi (by decide)
    · exact hgi

/-- The tail length stays within the arrays in every reachable state, live or
not. -/
theorem len_reachable (s : State) (h : Reachable s) :
    0 ≤ s.snakeTailLen ∧ s.snakeTailLen ≤ MAX_TAIL_LEN := by
  induction h with
  | setup s0 s rs rs1 h =>
    obtain ⟨_, _, _, _, hlen, _⟩ := setup_frame s0 s rs rs1 h
    rw [hlen]
    decide
  | tick s s1 ch rs rs1 _ h ih =>
    unfold tick at h
    obtain ⟨_, hl⟩ := logic_score_len _ rs s1 rs1 h
    obtain ⟨_, _, ilen, _⟩ := input_frame ch s
    rw [hl, ilen]
    split
    · omega
    · exact ih

/-- In a reachable live state with a body, segment 0 is the cell right behind
the head. -/
theorem Neck_reachable (s : State) (h : Reachable s) :
    s.gameover = false → 1 ≤ s.snakeTailLen → Neck s := by
  induction h with
  | setup s0 s rs rs1 h =>
    intro _ hl
    obtain ⟨_, _, _, _, hlen, _⟩ := setup_frame s0 s rs rs1 h
    omega
  | tick p s ch rs rs1 hp h _ =>
    intro hg hl
    obtain ⟨_, hgi⟩ := tick_live p s ch rs rs1 h hg
    have hd := input_direction_ok ch p (Inv_reachable p hp).1
    unfold tick at h
    obtain ⟨htail, hx, hy, hdir, _⟩ := logic_live_tail _ rs s rs1 h hgi hg
    obtain ⟨h0x, h0y⟩ := htail 0 (by omega)
    simp only [if_true] at h0x h0y
    have hm := move_head_xy (input ch p)
    unfold Neck
    rw [h0x, h0y, hx, hy, hdir]
    split_ifs at hm <;> simp only [Prod.mk.injEq] at hm <;> omega

/-! ## Array indices -/

theorem tailScan_indices_lt (tx ty : Nat → Int) (px py : Int) (n : Nat) :
    ∀ k i, i ∈ tailScan_indices tx ty px py k n → i < k + n := by
  induction n with
  | zero =>
    intro k i hi
    simp [tailScan_indices] at hi
  | succ n ih =>
    intro k i hi
    unfold tailScan_indices at hi
    rcases List.mem_cons.mp hi with h0 | h1
    · omega
    · split at h1
      · simp at h1
      · have := ih (k + 1) i h1
        omega

theorem generate_fruit_indices_lt (s : State) :
    ∀ (rs : List Nat) (i : Nat), i ∈ generate_fruit_indices s rs →
      (i : Int) < s.snakeTailLen
  | [], _, h => by simp [generate_fruit_indices] at h
  | [_], _, h => by simp [generate_fruit_indices] at h
  | r1 :: r2 :: rs, i, h => by
    unfold generate_fruit_indices at h
    rcases List.mem_append.mp h with h1 | h2
    · split at h1
      · simp at h1
      · have := tailScan_indices_lt _ _ _ _ _ _ _ h1
        have hl : (sample_fruit s r1 r2).snakeTailLen = s.snakeTailLen := rfl
        rw [hl] at this
        omega
    · split at h2
      · have := generate_fruit_indices_lt (sample_fruit s r1 r2) rs i h2
        exact this
      · simp at h2

theorem shift_loop_indices_le (n : Nat) :
    ∀ i, i ∈ shift_loop_indices n → i ≤ n := by
  induction n with
  | zero =>
    intro i hi
    simp [shift_loop_indices] at hi
  | succ n ih =>
    intro i hi
    unfold shift_loop_indices at hi
    rcases List.mem_cons.mp hi with h0 | h1
    · omega
    · rcases List.mem_cons.mp h1 with h2 | h3
      · omega
      · have := ih i h3
        omega

theorem update_tail_indices_lt (s : State) (i : Nat) (hi : i ∈ update_tail_indices s) :
    (i : Int) < s.snakeTailLen := by
  unfold update_tail_indices at hi
  split at hi
  · rcases List.mem_append.mp hi with h1 | h2
    · have := shift_loop_indices_le _ i h1
      omega
    · simp only [List.mem_singleton] at h2
      omega
  · simp at hi

/-- Every index accessed by a call of `logic` on a state whose tail length is
at most MAX_TAIL_LEN is below MAX_TAIL_LEN. -/
theorem logic_indices_lt (s : State) (rs : List Nat)
    (hlen : s.snakeTailLen ≤ MAX_TAIL_LEN) (i : Nat) (hi : i ∈ logic_indices s rs) :
    (i : Int) < MAX_TAIL_LEN := by
  obtain ⟨_, _, mlen, _⟩ := move_head_frame s
  unfold logic_indices at hi
  split at hi
  · simp at hi
  · split at hi
    · simp at hi
    · rcases List.mem_append.mp hi with h1 | h2
      · have := tailScan_indices_lt _ _ _ _ _ _ _ h1
        rw [mlen] at this
        omega
      · split at h2
        · simp at h2
        · rcases List.mem_append.mp h2 with h3 | h4
          · split at h3
            · have := generate_fruit_indices_lt _ rs i h3
              simp only at this
              rw [mlen] at this
              split at this <;> omega
            · simp at h3
          · cases hf : fruit_collision (move_head s) rs with
            | none =>
              rw [hf] at h4
              simp at h4
            | some p =>
              obtain ⟨f, r⟩ := p
              rw [hf] at h4
              simp only at h4
              have hb := update_tail_indices_lt f i h4
              obtain ⟨_, _, _, _, _, _, flen⟩ := fruit_collision_frame _ _ _ _ hf
              rw [mlen] at flen
              omega

/-! ## Runs -/

theorem Run_reachable (l : List State) (n : Nat) (h : Run l n) :
    ∀ s, s ∈ l.head? → Reachable s := by
  induction h with
  | setup s0 s rs rs1 h =>
    intro p hp
    simp only [List.head?_cons, Option.mem_def, Option.some.injEq] at hp
    subst hp
    exact Reachable.setup s0 _ rs rs1 h
  | tick s s1 hist n ch rs rs1 _ h ih =>
    intro p hp
    simp only [List.head?_cons, Option.mem_def, Option.some.injEq] at hp
    subst hp
    exact Reachable.tick s _ ch rs rs1 (ih s rfl) h

/-- Every reachable state is the newest state of a run. -/
theorem Reachable_run (s : State) (h : Reachable s) :
    ∃ hist n, Run (s :: hist) n := by
  induction h with
  | setup s0 s rs rs1 h => exact ⟨[], 0, Run.setup s0 s rs rs1 h⟩
  | tick s s1 ch rs rs1 _ h ih =>
    obtain ⟨hist, n, hr⟩ := ih
    exact ⟨s :: hist, _, Run.tick s s1 hist n ch rs rs1 hr h⟩

/-- Trailing law: in a run that ends live, body segment `i` of the newest state
is the head of the state `i + 1` places back. -/
theorem Run_trailing (l : List State) (n : Nat) (h : Run l n) :
    ∀ s hist, l = s :: hist → s.gameover = false →
      ∀ i : Nat, (i : Int) < s.snakeTailLen →
        ∃ p, hist[i]? = some p ∧ s.snakeTailX i = p.x ∧ s.snakeTailY i = p.y := by
  induction h with
  | setup s0 s rs rs1 h =>
    intro p hist hl _ i hi
    simp only [List.cons.injEq] at hl
    obtain ⟨_, _, _, _, hlen, _⟩ := setup_frame s0 s rs rs1 h
    rw [← hl.1, hlen] at hi
    omega
  | tick s s1 hist n ch rs rs1 _ h ih =>
    intro p hist1 hl hg i hi
    simp only [List.cons.injEq] at hl
    obtain ⟨hp, hh⟩ := hl
    subst hp
    subst hh
    obtain ⟨hgs, hgi⟩ := tick_live s s1 ch rs rs1 h hg
    unfold tick at h
    obtain ⟨htail, _, _, _, hlen⟩ := logic_live_tail _ rs s1 rs1 h hgi hg
    obtain ⟨iX, iY, ilen, _, ix, iy, _, _⟩ := input_frame ch s
    rw [ilen] at hlen
    obtain ⟨hX, hY⟩ := htail i hi
    rw [iX, ix] at hX
    rw [iY, iy] at hY
    match i with
    | 0 =>
      exact ⟨s, by simp, hX, hY⟩
    | j + 1 =>
      have hj : (j : Int) < s.snakeTailLen := by omega
      obtain ⟨q, hq, hqx, hqy⟩ := ih s hist rfl hgs j hj
      refine ⟨q, by simpa using hq, ?_, ?_⟩
      · rw [hX, if_neg (by omega)]
        exact hqx
      · rw [hY, if_neg (by omega)]
        exact hqy

/-- Score accounting along a run: the score is 10 times the number of ticks in
which the head ate the fruit, at least 10 times the tail length, and equal to
it below the maximum length. -/
theorem Run_score (l : List State) (n : Nat) (h : Run l n) :
    ∀ s hist, l = s :: hist →
      s.score = 10 * (n : Int) ∧ 10 * s.snakeTailLen ≤ s.score ∧
      (s.snakeTailLen < MAX_TAIL_LEN → s.score = 10 * s.snakeTailLen) := by
  induction h with
  | setup s0 s rs rs1 h =>
    intro p hist hl
    simp only [List.cons.injEq] at hl
    obtain ⟨_, _, _, _, hlen, hsc, _⟩ := setup_frame s0 s rs rs1 h
    rw [← hl.1, hlen, hsc]
    simp
  | tick s s1 hist n ch rs rs1 _ h ih =>
    intro p hist1 hl
    simp only [List.cons.injEq] at hl
    obtain ⟨hp, _⟩ := hl
    subst hp
    obtain ⟨h1, h2, h3⟩ := ih s hist rfl
    unfold tick at h
    obtain ⟨hsc, hlen⟩ := logic_score_len _ rs s1 rs1 h
    obtain ⟨_, _, ilen, isc, _⟩ := input_frame ch s
    rw [isc] at hsc
    rw [ilen] at hlen
    unfold MAX_TAIL_LEN at h3 hlen ⊢
    by_cases he : eats (input ch s) = true
    · rw [if_pos he] at hsc ⊢
      by_cases hlt : s.snakeTailLen < 100
      · rw [if_pos ⟨he, hlt⟩] at hlen
        have := h3 hlt
        push_cast
        refine ⟨by omega, by omega, fun _ => by omega⟩
      · rw [if_neg (fun hc => hlt hc.2)] at hlen
        push_cast
        refine ⟨by omega, by omega, fun _ => by omega⟩
    · rw [if_neg he] at hsc ⊢
      rw [if_neg (fun hc => he hc.1)] at hlen
      push_cast
      refine ⟨by omega, by omega, fun hlt => ?_⟩
      have := h3 (by omega)
      omega

/-! ## Free cells -/

/-- Pigeonhole: with at most MAX_TAIL_LEN body cells, some cell strictly inside
the border is neither the head nor a body cell. -/
theorem exists_free_cell (s : State) (hlen : s.snakeTailLen ≤ MAX_TAIL_LEN) :
    ∃ fx fy, Inside fx fy ∧ Free s fx fy := by
  classical
  have hocc : (insert (s.x, s.y) ((Finset.range s.snakeTailLen.toNat).image
      (fun k => (s.snakeTailX k, s.snakeTailY k)))).card ≤ 101 := by
    have h1 := Finset.card_insert_le (s.x, s.y) ((Finset.range s.snakeTailLen.toNat).image
      (fun k => (s.snakeTailX k, s.snakeTailY k)))
    have h2 : ((Finset.range s.snakeTailLen.toNat).image
      (fun k => (s.snakeTailX k, s.snakeTailY k))).card ≤ s.snakeTailLen.toNat := by
      have := Finset.card_image_le (s := Finset.range s.snakeTailLen.toNat)
        (f := fun k => (s.snakeTailX k, s.snakeTailY k))
      rw [Finset.card_range] at this
      exact this
    unfold MAX_TAIL_LEN at hlen
    omega
  have hboard : (Finset.Icc (1 : Int) 38 ×ˢ Finset.Icc (1 : Int) 18).card = 684 := by
    rw [Finset.card_product, Int.card_Icc, Int.card_Icc]
    rfl
  by_contra hno
  have hsub : Finset.Icc (1 : Int) 38 ×ˢ Finset.Icc (1 : Int) 18 ⊆
      insert (s.x, s.y) ((Finset.range s.snakeTailLen.toNat).image
        (fun k => (s.snakeTailX k, s.snakeTailY k))) := by
    intro c hc
    by_contra hnot
    apply hno
    rw [Finset.mem_product, Finset.mem_Icc, Finset.mem_Icc] at hc
    refine ⟨c.1, c.2, ⟨hc.1.1, hc.1.2, hc.2.1, hc.2.2⟩, ?_, ?_⟩
    · intro hp
      apply hnot
      rw [Finset.mem_insert]
      exact Or.inl (Prod.ext hp.1 hp.2)
    · intro k hk hp
      apply hnot
      rw [Finset.mem_insert]
      refine Or.inr (Finset.mem_image.mpr ⟨k, ?_, ?_⟩)
      · rw [Finset.mem_range]
        omega
      · exact Prod.ext hp.1.symm hp.2.symm
  have := Finset.card_le_card hsub
  omega

/-- Termination of `generate_fruit` on every stream that holds a candidate off
the snake. -/
theorem generate_fruit_returns_of_free (s : State) (rs : List Nat) :
    ∀ n : Nat, 2 * n + 2 ≤ rs.length →
      on_snake (sample_fruit s (rs.getD (2 * n) 0) (rs.getD (2 * n + 1) 0)) = false →
      ∃ s1 rs1, generate_fruit s rs = some (s1, rs1) := by
  intro n
  induction n using Nat.strong_induction_on with
  | _ n ih =>
    intro hn hf
    by_cases hall : ∀ i, i < n →
        on_snake (sample_fruit s (rs.getD (2 * i) 0) (rs.getD (2 * i + 1) 0)) = true
    · exact ⟨_, _, generate_fruit_returns s n rs hn hf hall⟩
    · push_neg at hall
      obtain ⟨i, hi, hfi⟩ := hall
      exact ih i hi (by omega) (by simpa using hfi)

/-! ## The claims, continued -/

/-- C11: plain move.  On a live state with direction in {1,2,3,4}, a tick with no
pending key whose moved head is strictly inside the border, on no body cell and
not on the fruit returns (drawing no sample) with the head on that cell, one
step from the old head, `gameover` false, and `score`, `snakeTailLen`, the fruit
cell and `direction` unchanged. -/
theorem C11_plain_move (s : State) (rs : List Nat) (hg : s.gameover = false)
    (hd : s.direction = 1 ∨ s.direction = 2 ∨ s.direction = 3 ∨ s.direction = 4)
    (hin : 1 ≤ (move_head s).x ∧ (move_head s).x ≤ WIDTH - 2 ∧
      1 ≤ (move_head s).y ∧ (move_head s).y ≤ HEIGHT - 2)
    (hbody : ∀ k : Nat, (k : Int) < s.snakeTailLen →
      ¬(s.snakeTailX k = (move_head s).x ∧ s.snakeTailY k = (move_head s).y))
    (hfruit : ¬((move_head s).x = s.fruitx ∧ (move_head s).y = s.fruity)) :
    ∃ s1, tick NO_KEY s rs = some (s1, rs) ∧
      s1.x = (move_head s).x ∧ s1.y = (move_head s).y ∧
      ((s1.x = s.x - 1 ∧ s1.y = s.y) ∨ (s1.x = s.x ∧ s1.y = s.y + 1) ∨
        (s1.x = s.x + 1 ∧ s1.y = s.y) ∨ (s1.x = s.x ∧ s1.y = s.y - 1)) ∧
      s1.gameover = false ∧ s1.score = s.score ∧
      s1.snakeTailLen = s.snakeTailLen ∧
      s1.fruitx = s.fruitx ∧ s1.fruity = s.fruity ∧ s1.direction = s.direction := by
  obtain ⟨mX, mY, mlen, mg, msc, mfx, mfy, md⟩ := move_head_frame s
  obtain ⟨ulen, ug, usc, ux, uy, ufx, ufy, ud⟩ := update_tail_frame (move_head s) s.x s.y
  have hmv := move_head_moves s hd
  have hw : ¬(wall_collision (move_head s) = true) := by
    rw [(wall_collision_eq_false _).mpr hin]
    decide
  have hs : ¬(self_collision (move_head s) = true) := by
    have : self_collision (move_head s) = false := by
      rw [self_collision_eq_false, mX, mY, mlen]
      exact hbody
    rw [this]
    decide
  have hfc : fruit_collision (move_head s) rs = some (move_head s, rs) := by
    unfold fruit_collision
    rw [if_neg (by rw [mfx, mfy]; exact hfruit)]
  refine ⟨update_tail (move_head s) s.x s.y, ?_, ux, uy, by rw [ux, uy]; exact hmv,
    by rw [ug, mg]; exact hg, by rw [usc, msc], by rw [ulen, mlen], by rw [ufx, mfx],
    by rw [ufy, mfy], by rw [ud, md]⟩
  unfold tick
  rw [input_no_key]
  unfold logic
  have hg0 : ¬(s.gameover = true) := by simp [hg]
  rw [if_neg hg0]
  simp only
  rw [if_neg hw, if_neg hs, hfc]

/-- C11 at direction right, head (20,10), empty body, fruit at (6,6): the tick
ends with head (21,10), empty body, score 0. -/
theorem C11_plain_move_witness :
    exSetupFar.direction = 3 ∧ exSetupFar.x = 20 ∧ exSetupFar.y = 10 ∧
    exSetupFar.snakeTailLen = 0 ∧
    ∃ s1, tick NO_KEY exSetupFar [4, 4] = some (s1, [4, 4]) ∧
      s1.x = 21 ∧ s1.y = 10 ∧ s1.gameover = false ∧ s1.score = 0 ∧
      s1.snakeTailLen = 0 ∧ s1.fruitx = exSetupFar.fruitx ∧
      s1.fruity = exSetupFar.fruity ∧ s1.direction = exSetupFar.direction := by
  obtain ⟨s1, h1, h2, h3, _, h5, h6, h7, h8, h9, h10⟩ :=
    C11_plain_move exSetupFar [4, 4] rfl (by decide) (by decide)
      (fun k hk => absurd hk (by show ¬((k : Int) < 0); omega)) (by decide)
  exact ⟨rfl, rfl, rfl, rfl, s1, h1, h2.trans rfl, h3.trans rfl, h5, h6.trans rfl,
    h7.trans rfl, h8, h9, h10⟩

/-- C12: body shift.  After a call of `logic()` that starts and ends with
`gameover` false: if it ends with `snakeTailLen` > 0, segment 0 is the head
position before the move and every segment `i` with 1 ≤ i < `snakeTailLen` holds
what segment `i - 1` held before the call; and if the body was empty and the
moved head is on the fruit, then afterwards `snakeTailLen` = 1, segment 0 is the
old head position and the head is the fruit's old position. -/
theorem C12_body_shift (s : State) (rs : List Nat) (s1 : State) (rs1 : List Nat)
    (h : logic s rs = some (s1, rs1)) (hg : s.gameover = false)
    (hg1 : s1.gameover = false) :
    (0 < s1.snakeTailLen →
      s1.snakeTailX 0 = s.x ∧ s1.snakeTailY 0 = s.y ∧
      ∀ i : Nat, 1 ≤ i → (i : Int) < s1.snakeTailLen →
        s1.snakeTailX i = s.snakeTailX (i - 1) ∧ s1.snakeTailY i = s.snakeTailY (i - 1)) ∧
    (s.snakeTailLen = 0 → (move_head s).x = s.fruitx ∧ (move_head s).y = s.fruity →
      s1.snakeTailLen = 1 ∧ s1.snakeTailX 0 = s.x ∧ s1.snakeTailY 0 = s.y ∧
      s1.x = s.fruitx ∧ s1.y = s.fruity) := by
  obtain ⟨htail, hx, hy, _, _⟩ := logic_live_tail s rs s1 rs1 h hg hg1
  have hseg : 0 < s1.snakeTailLen →
      s1.snakeTailX 0 = s.x ∧ s1.snakeTailY 0 = s.y ∧
      ∀ i : Nat, 1 ≤ i → (i : Int) < s1.snakeTailLen →
        s1.snakeTailX i = s.snakeTailX (i - 1) ∧
          s1.snakeTailY i = s.snakeTailY (i - 1) := by
    intro hpos
    obtain ⟨h0x, h0y⟩ := htail 0 (by omega)
    refine ⟨by simpa using h0x, by simpa using h0y, ?_⟩
    intro i hi1 hi
    obtain ⟨hiX, hiY⟩ := htail i hi
    rw [if_neg (by omega)] at hiX hiY
    exact ⟨hiX, hiY⟩
  refine ⟨hseg, ?_⟩
  intro hl0 hfr
  obtain ⟨hw, hsc, _⟩ := logic_live s rs s1 rs1 h hg hg1
  obtain ⟨_, _, _, _, _, mfx, mfy, _⟩ := move_head_frame s
  have he : eats s = true := by
    unfold eats
    rw [mfx, mfy]
    simp [hg, hw, hsc, hfr]
  obtain ⟨_, hlen⟩ := logic_score_len s rs s1 rs1 h
  have hlt : s.snakeTailLen < MAX_TAIL_LEN := by
    rw [hl0]
    decide
  rw [if_pos ⟨he, hlt⟩, hl0] at hlen
  have hlen1 : s1.snakeTailLen = 1 := by
    rw [hlen]
    rfl
  obtain ⟨h0x, h0y, _⟩ := hseg (by omega)
  exact ⟨hlen1, h0x, h0y, by rw [hx]; exact hfr.1, by rw [hy]; exact hfr.2⟩

/-- C12 at the head (20,10) with an empty body and the fruit at (21,10): after
`logic()` the tail length is 1, segment 0 is (20,10) and the head is (21,10). -/
theorem C12_body_shift_witness :
    logic exSetup [5, 5] = some (exGrown, []) ∧
    exGrown.snakeTailLen = 1 ∧ exGrown.snakeTailX 0 = exSetup.x ∧
    exGrown.snakeTailY 0 = exSetup.y ∧
    exGrown.x = exSetup.fruitx ∧ exGrown.y = exSetup.fruity :=
  ⟨rfl, (C12_body_shift exSetup [5, 5] exGrown [] rfl rfl rfl).2 rfl ⟨rfl, rfl⟩⟩

/-- C13: quit.  On a live state, a tick whose key is x (120) or X (88) returns
(drawing no sample) with `gameover` true and with the head, `snakeTailLen`, both
tail arrays, the fruit cell, `score` and `direction` unchanged. -/
theorem C13_quit (s : State) (ch : Int) (rs : List Nat) (_hg : s.gameover = false)
    (hq : ch = 120 ∨ ch = 88) :
    ∃ s1, tick ch s rs = some (s1, rs) ∧ s1.gameover = true ∧
      s1.x = s.x ∧ s1.y = s.y ∧ s1.snakeTailLen = s.snakeTailLen ∧
      s1.snakeTailX = s.snakeTailX ∧ s1.snakeTailY = s.snakeTailY ∧
      s1.fruitx = s.fruitx ∧ s1.fruity = s.fruity ∧ s1.score = s.score ∧
      s1.direction = s.direction := by
  refine ⟨{ s with gameover := true }, ?_, rfl, rfl, rfl, rfl, rfl, rfl, rfl, rfl, rfl, rfl⟩
  unfold tick
  rw [input_quit ch s hq]
  exact logic_gameover _ rs rfl

/-- C13 at the state after `setup()`, with the key x and two pending samples. -/
theorem C13_quit_witness :
    exSetup.gameover = false ∧
    ∃ s1, tick 120 exSetup [1, 2] = some (s1, [1, 2]) ∧ s1.gameover = true ∧
      s1.x = exSetup.x ∧ s1.y = exSetup.y ∧ s1.snakeTailLen = exSetup.snakeTailLen ∧
      s1.snakeTailX = exSetup.snakeTailX ∧ s1.snakeTailY = exSetup.snakeTailY ∧
      s1.fruitx = exSetup.fruitx ∧ s1.fruity = exSetup.fruity ∧
      s1.score = exSetup.score ∧ s1.direction = exSetup.direction :=
  ⟨rfl, C13_quit exSetup 120 [1, 2] rfl (Or.inl rfl)⟩

/-- C14: in every reachable state 0 ≤ `snakeTailLen` ≤ MAX_TAIL_LEN = 100, no
tick decreases `snakeTailLen`, and every index of `snakeTailX` / `snakeTailY`
accessed by `logic()` in the next tick, by `generate_fruit()` called on the
state, or by `setup()`, lies in [0, MAX_TAIL_LEN - 1]. -/
theorem C14_tail_length_bounded (s : State) (hr : Reachable s) :
    (0 ≤ s.snakeTailLen ∧ s.snakeTailLen ≤ MAX_TAIL_LEN ∧ MAX_TAIL_LEN = 100) ∧
    (∀ (ch : Int) (rs : List Nat) (s1 : State) (rs1 : List Nat),
      tick ch s rs = some (s1, rs1) → s.snakeTailLen ≤ s1.snakeTailLen) ∧
    (∀ (ch : Int) (rs : List Nat) (i : Nat), i ∈ logic_indices (input ch s) rs →
      0 ≤ (i : Int) ∧ (i : Int) ≤ MAX_TAIL_LEN - 1) ∧
    (∀ (rs : List Nat) (i : Nat), i ∈ generate_fruit_indices s rs →
      0 ≤ (i : Int) ∧ (i : Int) ≤ MAX_TAIL_LEN - 1) ∧
    (∀ (s0 : State) (rs : List Nat) (i : Nat), i ∈ setup_indices s0 rs →
      0 ≤ (i : Int) ∧ (i : Int) ≤ MAX_TAIL_LEN - 1) := by
  obtain ⟨h0, h1⟩ := len_reachable s hr
  refine ⟨⟨h0, h1, rfl⟩, ?_, ?_, ?_, ?_⟩
  · intro ch rs s1 rs1 ht
    unfold tick at ht
    obtain ⟨_, hl⟩ := logic_score_len _ rs s1 rs1 ht
    obtain ⟨_, _, ilen, _⟩ := input_frame ch s
    rw [hl, ilen]
    split <;> omega
  · intro ch rs i hi
    obtain ⟨_, _, ilen, _⟩ := input_frame ch s
    have := logic_indices_lt (input ch s) rs (by rw [ilen]; exact h1) i hi
    omega
  · intro rs i hi
    have := generate_fruit_indices_lt s rs i hi
    omega
  · intro s0 rs i hi
    unfold setup_indices at hi
    have := generate_fruit_indices_lt _ rs i hi
    simp only at this
    omega

/-- C14 at the state reached by `setup()` and one tick that eats the fruit. -/
theorem C14_tail_length_bounded_witness :
    Reachable exGrown ∧ exGrown.snakeTailLen = 1 ∧
    (0 ≤ exGrown.snakeTailLen ∧ exGrown.snakeTailLen ≤ MAX_TAIL_LEN ∧ MAX_TAIL_LEN = 100) ∧
    logic_indices (input NO_KEY exGrown) [] = [0, 0] ∧
    ∀ i : Nat, i ∈ logic_indices (input NO_KEY exGrown) [] →
      0 ≤ (i : Int) ∧ (i : Int) ≤ MAX_TAIL_LEN - 1 :=
  ⟨Reachable.tick exSetup exGrown NO_KEY [5, 5] []
      (Reachable.setup zeroState exSetup [20, 9] [] rfl) rfl,
    rfl,
    (C14_tail_length_bounded exGrown
      (Reachable.tick exSetup exGrown NO_KEY [5, 5] []
        (Reachable.setup zeroState exSetup [20, 9] [] rfl) rfl)).1,
    rfl,
    (C14_tail_length_bounded exGrown
      (Reachable.tick exSetup exGrown NO_KEY [5, 5] []
        (Reachable.setup zeroState exSetup [20, 9] [] rfl) rfl)).2.2.1 NO_KEY []⟩

/-- C15: unrecognized keys are no-ops.  For a key code that is none of a, A, s, S,
d, D, w, W, x, X (the no-key value included), `input()` leaves `direction` and
`gameover`, indeed the whole state, unchanged, and the tick gives exactly what a
tick with no key pressed gives. -/
theorem C15_unrecognized_key_noop (s : State) (ch : Int) (rs : List Nat)
    (hk : ch ≠ 97 ∧ ch ≠ 65 ∧ ch ≠ 115 ∧ ch ≠ 83 ∧ ch ≠ 100 ∧ ch ≠ 68 ∧
      ch ≠ 119 ∧ ch ≠ 87 ∧ ch ≠ 120 ∧ ch ≠ 88) :
    (input ch s).direction = s.direction ∧ (input ch s).gameover = s.gameover ∧
    input ch s = s ∧ tick ch s rs = tick NO_KEY s rs := by
  have hi := input_unrecognized ch s hk
  refine ⟨by rw [hi], by rw [hi], hi, ?_⟩
  unfold tick
  rw [hi, input_no_key]

/-- C15 with the key q (113) on the state after `setup()`: the tick eats the
fruit exactly as the tick with no key does. -/
theorem C15_unrecognized_key_noop_witness :
    (input 113 exSetup).direction = exSetup.direction ∧
    (input 113 exSetup).gameover = exSetup.gameover ∧
    tick 113 exSetup [5, 5] = tick NO_KEY exSetup [5, 5] ∧
    tick NO_KEY exSetup [5, 5] = some (exGrown, []) :=
  ⟨(C15_unrecognized_key_noop exSetup 113 [5, 5] (by decide)).1,
    (C15_unrecognized_key_noop exSetup 113 [5, 5] (by decide)).2.1,
    (C15_unrecognized_key_noop exSetup 113 [5, 5] (by decide)).2.2.2, rfl⟩

/-- C16: trailing law over a run.  In a run of t ticks from `setup()` (t is the
length of `hist`) that ends with `gameover` false, for every i below
`snakeTailLen` at least i + 1 ticks have been done and body segment i of the
last state equals the head position at the end of tick t - (i + 1), tick 0 being
the state right after `setup()`: the state i + 1 places back in the run. -/
theorem C16_trailing_law (s : State) (hist : List State) (n : Nat)
    (hr : Run (s :: hist) n) (hg : s.gameover = false) (i : Nat)
    (hi : (i : Int) < s.snakeTailLen) :
    i + 1 ≤ hist.length ∧
    ∃ p, (s :: hist).reverse[hist.length - (i + 1)]? = some p ∧ hist[i]? = some p ∧
      s.snakeTailX i = p.x ∧ s.snakeTailY i = p.y := by
  obtain ⟨p, hp, hx, hy⟩ := Run_trailing _ n hr s hist rfl hg i hi
  have hlt : i < hist.length := by
    by_contra hc
    rw [List.getElem?_eq_none (by omega)] at hp
    exact absurd hp (by simp)
  refine ⟨by omega, p, ?_, hp, hx, hy⟩
  rw [List.getElem?_reverse (by simp only [List.length_cons]; omega)]
  have hidx : (s :: hist).length - 1 - (hist.length - (i + 1)) = i + 1 := by
    simp only [List.length_cons]
    omega
  rw [hidx, List.getElem?_cons_succ]
  exact hp

/-- C16 on the run `setup()`, then one tick that eats the fruit: segment 0 of the
last state is the head (20,10) of the state right after `setup()`. -/
theorem C16_trailing_law_witness :
    Run [exGrown, exSetup] 1 ∧ exGrown.gameover = false ∧
    ((0 : Nat) : Int) < exGrown.snakeTailLen ∧
    (0 + 1 ≤ [exSetup].length ∧
      ∃ p, [exGrown, exSetup].reverse[[exSetup].length - (0 + 1)]? = some p ∧
        [exSetup][0]? = some p ∧
        exGrown.snakeTailX 0 = p.x ∧ exGrown.snakeTailY 0 = p.y) :=
  ⟨Run.tick exSetup exGrown [] 0 NO_KEY [5, 5] []
      (Run.setup zeroState exSetup [20, 9] [] rfl) rfl,
    rfl, by decide,
    C16_trailing_law exGrown [exSetup] 1
      (Run.tick exSetup exGrown [] 0 NO_KEY [5, 5] []
        (Run.setup zeroState exSetup [20, 9] [] rfl) rfl) rfl 0 (by decide)⟩

/-- C17: no steering into the neck.  In a reachable state with `gameover` false
and `snakeTailLen` ≥ 1, for every key code the head position computed by the next
tick, after `input()` applied the reversal rule, differs from body segment 0; and
whenever the tick returns, its head is not on that cell. -/
theorem C17_no_steering_into_neck (s : State) (hr : Reachable s)
    (hg : s.gameover = false) (hl : 1 ≤ s.snakeTailLen) (ch : Int) :
    ¬((move_head (input ch s)).x = s.snakeTailX 0 ∧
      (move_head (input ch s)).y = s.snakeTailY 0) ∧
    ∀ (rs : List Nat) (s1 : State) (rs1 : List Nat),
      tick ch s rs = some (s1, rs1) →
      ¬(s1.x = s.snakeTailX 0 ∧ s1.y = s.snakeTailY 0) := by
  have hN := Neck_reachable s hr hg hl
  unfold Neck at hN
  have hdir := input_direction ch s
  have hnd := new_direction_cases ch s.direction
  have hm := move_head_xy (input ch s)
  obtain ⟨_, _, _, _, ix, iy, _, _⟩ := input_frame ch s
  rw [ix, iy] at hm
  have hfirst : ¬((move_head (input ch s)).x = s.snakeTailX 0 ∧
      (move_head (input ch s)).y = s.snakeTailY 0) := by
    intro hp
    split_ifs at hdir hm <;> simp only [Prod.mk.injEq] at hm <;> omega
  refine ⟨hfirst, ?_⟩
  intro rs s1 rs1 ht
  unfold tick at ht
  cases hgi : (input ch s).gameover with
  | false =>
    obtain ⟨h1, h2⟩ := logic_head _ rs s1 rs1 ht hgi
    rw [h1, h2]
    exact hfirst
  | true =>
    rw [logic_gameover _ rs hgi] at ht
    simp only [Option.some.injEq, Prod.mk.injEq] at ht
    rw [← ht.1, ix, iy]
    obtain ⟨_, _, _, _, hhead, _⟩ := (Inv_reachable s hr).2 hg
    intro hp
    exact hhead 0 (by omega) ⟨hp.1.symm, hp.2.symm⟩

/-- C17 at head (21,10) moving right with segment 0 at (20,10) and the key a
(left): the reversal is ignored and the next head (22,10) is not segment 0. -/
theorem C17_no_steering_into_neck_witness :
    Reachable exGrown ∧ exGrown.gameover = false ∧ 1 ≤ exGrown.snakeTailLen ∧
    (move_head (input 97 exGrown)).x = 22 ∧
    ¬((move_head (input 97 exGrown)).x = exGrown.snakeTailX 0 ∧
      (move_head (input 97 exGrown)).y = exGrown.snakeTailY 0) :=
  ⟨Reachable.tick exSetup exGrown NO_KEY [5, 5] []
      (Reachable.setup zeroState exSetup [20, 9] [] rfl) rfl,
    rfl, by decide, rfl,
    (C17_no_steering_into_neck exGrown
      (Reachable.tick exSetup exGrown NO_KEY [5, 5] []
        (Reachable.setup zeroState exSetup [20, 9] [] rfl) rfl) rfl (by decide) 97).1⟩

/-- C18: a free cell always exists.  For every state with
0 ≤ `snakeTailLen` ≤ MAX_TAIL_LEN = 100 there is a cell (fx, fy) with
1 ≤ fx ≤ 38 and 1 ≤ fy ≤ 18 that differs from the head and from every body cell
of index below `snakeTailLen`; `generate_fruit()` returns on every stream of
samples that holds a candidate off the snake; and such a stream exists. -/
theorem C18_free_cell_exists (s : State)
    (hlen : 0 ≤ s.snakeTailLen ∧ s.snakeTailLen ≤ MAX_TAIL_LEN) :
    (∃ fx fy : Int, 1 ≤ fx ∧ fx ≤ 38 ∧ 1 ≤ fy ∧ fy ≤ 18 ∧
      ¬(fx = s.x ∧ fy = s.y) ∧
      ∀ k : Nat, (k : Int) < s.snakeTailLen →
        ¬(fx = s.snakeTailX k ∧ fy = s.snakeTailY k)) ∧
    (∀ (rs : List Nat) (n : Nat), 2 * n + 2 ≤ rs.length →
      Free s (candidate rs n).1 (candidate rs n).2 →
      ∃ s1 rs1, generate_fruit s rs = some (s1, rs1)) ∧
    (∃ rs s1 rs1, generate_fruit s rs = some (s1, rs1)) := by
  obtain ⟨fx, fy, hin, hfree⟩ := exists_free_cell s hlen.2
  have hret : ∀ (rs : List Nat) (n : Nat), 2 * n + 2 ≤ rs.length →
      Free s (candidate rs n).1 (candidate rs n).2 →
      ∃ s1 rs1, generate_fruit s rs = some (s1, rs1) := by
    intro rs n hn hf
    exact generate_fruit_returns_of_free s rs n hn ((on_snake_eq_false _).mpr hf)
  unfold Inside WIDTH HEIGHT at hin
  refine ⟨⟨fx, fy, hin.1, by omega, hin.2.2.1, by omega, hfree.1, hfree.2⟩, hret, ?_⟩
  have hfx : (((fx - 1).toNat : Nat) : Int) % (WIDTH - 2) + 1 = fx := by
    unfold WIDTH
    omega
  have hfy : (((fy - 1).toNat : Nat) : Int) % (HEIGHT - 2) + 1 = fy := by
    unfold HEIGHT
    omega
  refine ⟨[(fx - 1).toNat, (fy - 1).toNat], ?_⟩
  apply hret _ 0 (by simp)
  show Free s ((((fx - 1).toNat : Nat) : Int) % (WIDTH - 2) + 1)
    ((((fy - 1).toNat : Nat) : Int) % (HEIGHT - 2) + 1)
  rw [hfx, hfy]
  exact hfree

/-- C18 at a snake with head (20,10) and two body cells: the candidate (20,10)
is on the head, the candidate (6,6) is free, and `generate_fruit()` returns on
the samples 19, 9, 5, 5. -/
theorem C18_free_cell_exists_witness :
    (0 ≤ exBite.snakeTailLen ∧ exBite.snakeTailLen ≤ MAX_TAIL_LEN) ∧
    candidate [19, 9, 5, 5] 1 = (6, 6) ∧
    ∃ s1 rs1, generate_fruit exBite [19, 9, 5, 5] = some (s1, rs1) := by
  have hf : Free exBite (candidate [19, 9, 5, 5] 1).1 (candidate [19, 9, 5, 5] 1).2 := by
    refine ⟨by decide, ?_⟩
    intro k hk
    have hk2 : k < 2 := by
      have : exBite.snakeTailLen = 2 := rfl
      omega
    interval_cases k <;> decide
  exact ⟨by decide, rfl,
    (C18_free_cell_exists exBite (by decide)).2.1 [19, 9, 5, 5] 1 (by decide) hf⟩

/-- C19: score accounting.  In the last state of every run from `setup()` (that
is, in every reachable state) the score is 10 times the number of ticks in which
the head ate the fruit, hence a non-negative multiple of 10; it is at least
10 * `snakeTailLen`, equal to 10 * `snakeTailLen` while `snakeTailLen` is below
MAX_TAIL_LEN; and no tick decreases it. -/
theorem C19_score_accounting (s : State) (hist : List State) (n : Nat)
    (hr : Run (s :: hist) n) :
    s.score = 10 * (n : Int) ∧ 0 ≤ s.score ∧ s.score % 10 = 0 ∧
    10 * s.snakeTailLen ≤ s.score ∧
    (s.snakeTailLen < MAX_TAIL_LEN → s.score = 10 * s.snakeTailLen) ∧
    ∀ (ch : Int) (rs : List Nat) (s1 : State) (rs1 : List Nat),
      tick ch s rs = some (s1, rs1) → s.score ≤ s1.score := by
  obtain ⟨h1, h2, h3⟩ := Run_score _ n hr s hist rfl
  refine ⟨h1, by omega, by omega, h2, h3, ?_⟩
  intro ch rs s1 rs1 ht
  unfold tick at ht
  obtain ⟨hsc, _⟩ := logic_score_len _ rs s1 rs1 ht
  obtain ⟨_, _, _, isc, _⟩ := input_frame ch s
  rw [hsc, isc]
  split <;> omega

/-- C19 on the run `setup()`, then one tick that eats the fruit: one eating tick,
score 10, tail length 1. -/
theorem C19_score_accounting_witness :
    Run [exGrown, exSetup] 1 ∧ exGrown.score = 10 ∧ exGrown.snakeTailLen = 1 ∧
    exGrown.score = 10 * ((1 : Nat) : Int) ∧ 0 ≤ exGrown.score ∧
    exGrown.score % 10 = 0 ∧
    10 * exGrown.snakeTailLen ≤ exGrown.score ∧
    (exGrown.snakeTailLen < MAX_TAIL_LEN → exGrown.score = 10 * exGrown.snakeTailLen) ∧
    ∀ (ch : Int) (rs : List Nat) (s1 : State) (rs1 : List Nat),
      tick ch exGrown rs = some (s1, rs1) → exGrown.score ≤ s1.score :=
  ⟨Run.tick exSetup exGrown [] 0 NO_KEY [5, 5] []
      (Run.setup zeroState exSetup [20, 9] [] rfl) rfl,
    rfl, rfl,
    C19_score_accounting exGrown [exSetup] 1
      (Run.tick exSetup exGrown [] 0 NO_KEY [5, 5] []
        (Run.setup zeroState exSetup [20, 9] [] rfl) rfl)⟩

/-- C20: the stopped direction is unreachable.  In every reachable state
`direction` is one of 1, 2, 3, 4 (never 0); hence every tick from it in which
`logic()` is called with `gameover` false, when it returns, has changed exactly
one head coordinate by exactly 1, and the head has not stayed in place. -/
theorem C20_direction_never_stopped (s : State) (hr : Reachable s) :
    (s.direction = 1 ∨ s.direction = 2 ∨ s.direction = 3 ∨ s.direction = 4) ∧
    s.direction ≠ 0 ∧
    ∀ (ch : Int) (rs : List Nat) (s1 : State) (rs1 : List Nat),
      (input ch s).gameover = false → tick ch s rs = some (s1, rs1) →
      (((s1.x = s.x - 1 ∨ s1.x = s.x + 1) ∧ s1.y = s.y) ∨
        (s1.x = s.x ∧ (s1.y = s.y - 1 ∨ s1.y = s.y + 1))) ∧
      ¬(s1.x = s.x ∧ s1.y = s.y) := by
  have hd := (Inv_reachable s hr).1
  refine ⟨hd, by omega, ?_⟩
  intro ch rs s1 rs1 hgi ht
  unfold tick at ht
  obtain ⟨h1, h2⟩ := logic_head _ rs s1 rs1 ht hgi
  have hmv := move_head_moves (input ch s) (input_direction_ok ch s hd)
  obtain ⟨_, _, _, _, ix, iy, _, _⟩ := input_frame ch s
  rw [ix, iy] at hmv
  rw [h1, h2]
  constructor <;> omega

/-- C20 at the state after `setup()`: direction 3, and a tick with the key w
(up) moves the head from (20,10) to (20,9). -/
theorem C20_direction_never_stopped_witness :
    Reachable exSetup ∧ exSetup.direction = 3 ∧
    tick 119 exSetup [] = some (exTurned, []) ∧ exTurned.x = 20 ∧ exTurned.y = 9 ∧
    (((exTurned.x = exSetup.x - 1 ∨ exTurned.x = exSetup.x + 1) ∧ exTurned.y = exSetup.y) ∨
      (exTurned.x = exSetup.x ∧
        (exTurned.y = exSetup.y - 1 ∨ exTurned.y = exSetup.y + 1))) ∧
    ¬(exTurned.x = exSetup.x ∧ exTurned.y = exSetup.y) :=
  ⟨Reachable.setup zeroState exSetup [20, 9] [] rfl, rfl, rfl, rfl, rfl,
    (C20_direction_never_stopped exSetup
      (Reachable.setup zeroState exSetup [20, 9] [] rfl)).2.2 119 [] exTurned [] rfl rfl⟩

/-! ## The growth law in `int` arithmetic -/

theorem wrap_int_eq (v : Int) (h0 : INT_MIN ≤ v) (h1 : v ≤ INT_MAX) : wrap_int v = v := by
  unfold INT_MIN at h0
  unfold INT_MAX at h1
  unfold wrap_int
  omega

/-- While `score + 10` fits in an `int`, the fruit block in `int` arithmetic is
the fruit block over unbounded integers. -/
theorem fruit_collision_int_eq (s : State) (rs : List Nat)
    (h0 : INT_MIN ≤ s.score) (h1 : s.score ≤ INT_MAX - 10) :
    fruit_collision_int s rs = fruit_collision s rs := by
  have hw : wrap_int (s.score + 10) = s.score + 10 :=
    wrap_int_eq _ (by omega) (by omega)
  unfold fruit_collision_int fruit_collision
  rw [hw]

/-- While `score + 10` fits in an `int`, `logic` in `int` arithmetic is `logic`
over unbounded integers. -/
theorem logic_int_eq (s : State) (rs : List Nat)
    (h0 : INT_MIN ≤ s.score) (h1 : s.score ≤ INT_MAX - 10) :
    logic_int s rs = logic s rs := by
  obtain ⟨_, _, _, _, msc, _⟩ := move_head_frame s
  unfold logic_int logic
  simp only
  rw [fruit_collision_int_eq (move_head s) rs (by rw [msc]; exact h0) (by rw [msc]; exact h1)]

/-- The eating call of `logic` returns as soon as its call of `generate_fruit`
does. -/
theorem logic_eats_returns (s : State) (rs : List Nat) (f : State) (rs1 : List Nat)
    (hg : s.gameover = false)
    (hw : wall_collision (move_head s) = false)
    (hs : self_collision (move_head s) = false)
    (hf : (move_head s).x = (move_head s).fruitx ∧ (move_head s).y = (move_head s).fruity)
    (hgf : generate_fruit
      { move_head s with
          score := (move_head s).score + 10,
          snakeTailLen :=
            if (move_head s).snakeTailLen < MAX_TAIL_LEN then (move_head s).snakeTailLen + 1
            else (move_head s).snakeTailLen } rs = some (f, rs1)) :
    logic s rs = some (update_tail f s.x s.y, rs1) := by
  have hfc : fruit_collision (move_head s) rs = some (f, rs1) := by
    unfold fruit_collision
    rw [if_pos hf]
    exact hgf
  unfold logic
  have hg0 : ¬(s.gameover = true) := by simp [hg]
  have hw0 : ¬(wall_collision (move_head s) = true) := by simp [hw]
  have hs0 : ¬(self_collision (move_head s) = true) := by simp [hs]
  rw [if_neg hg0]
  simp only
  rw [if_neg hw0, if_neg hs0, hfc]

/-- What a returning eating call of `logic` leaves in `score`, `snakeTailLen`
and `gameover`. -/
theorem logic_eats_post (s : State) (rs : List Nat) (s1 : State) (rs1 : List Nat)
    (hg : s.gameover = false)
    (hw : wall_collision (move_head s) = false)
    (hs : self_collision (move_head s) = false)
    (hf : (move_head s).x = s.fruitx ∧ (move_head s).y = s.fruity)
    (h : logic s rs = some (s1, rs1)) :
    s1.score = s.score + 10 ∧
    (s.snakeTailLen < MAX_TAIL_LEN → s1.snakeTailLen = s.snakeTailLen + 1) ∧
    (s.snakeTailLen = MAX_TAIL_LEN → s1.snakeTailLen = s.snakeTailLen) ∧
    s1.gameover = false := by
  obtain ⟨_, _, mlen, mg, msc, mfx, mfy, _⟩ := move_head_frame s
  rcases logic_cases s rs s1 rs1 h hg with ⟨hc, _⟩ | ⟨_, _, f, hfc, hs1⟩
  · rw [hw, hs] at hc
    exact absurd hc (by decide)
  · obtain ⟨ulen, ug, usc, _⟩ := update_tail_frame f s.x s.y
    rw [hs1, ulen, ug, usc]
    rcases fruit_collision_some _ rs f rs1 hfc with ⟨hno, _, _⟩ | ⟨_, hgf⟩
    · rw [mfx, mfy] at hno
      exact absurd hf hno
    · have hfr := generate_fruit_frame _ rs f rs1 hgf
      have h1 := congrArg State.score hfr
      have h2 := congrArg State.snakeTailLen hfr
      have h3 := congrArg State.gameover hfr
      simp only at h1 h2 h3
      rw [h1, h2, h3, msc, mlen, mg]
      refine ⟨rfl, ?_, ?_, hg⟩
      · intro hlt
        rw [if_pos hlt]
      · intro heq
        rw [if_neg (by omega)]

/-- With the tail length within the arrays, some stream of samples makes
`generate_fruit` return. -/
theorem generate_fruit_returns_on_some_stream (s : State)
    (hlen : s.snakeTailLen ≤ MAX_TAIL_LEN) :
    ∃ rs s1 rs1, generate_fruit s rs = some (s1, rs1) := by
  obtain ⟨fx, fy, hin, hfree⟩ := exists_free_cell s hlen
  unfold Inside WIDTH HEIGHT at hin
  have hfx : (((fx - 1).toNat : Nat) : Int) % (WIDTH - 2) + 1 = fx := by
    unfold WIDTH
    omega
  have hfy : (((fy - 1).toNat : Nat) : Int) % (HEIGHT - 2) + 1 = fy := by
    unfold HEIGHT
    omega
  refine ⟨[(fx - 1).toNat, (fy - 1).toNat], ?_⟩
  apply generate_fruit_returns_of_free s _ 0 (by simp)
  apply (on_snake_eq_false _).mpr
  show Free s ((((fx - 1).toNat : Nat) : Int) % (WIDTH - 2) + 1)
    ((((fy - 1).toNat : Nat) : Int) % (HEIGHT - 2) + 1)
  rw [hfx, hfy]
  exact hfree

/-- Termination of `generate_fruit` on every stream whose candidate `n` is off
the snake. -/
theorem generate_fruit_returns_of_free_candidate (s : State) (rs : List Nat) (n : Nat)
    (hn : 2 * n + 2 ≤ rs.length) (hF : Free s (candidate rs n).1 (candidate rs n).2) :
    ∃ s1 rs1, generate_fruit s rs = some (s1, rs1) :=
  generate_fruit_returns_of_free s rs n hn ((on_snake_eq_false _).mpr hF)

/-- C5 fails on the code at a score above INT_MAX - 10: with the head at (20,10)
moving right onto the fruit at (21,10), no wall or self collision, and score =
2147483640, `logic()` returns with `gameover` false and the tail grown by one,
but `score += 10` in the 32-bit `int` leaves -2147483646, not score + 10. -/
theorem C5_score_wraps_at_int_max :
    exRich.gameover = false ∧
    (INT_MIN ≤ exRich.score ∧ exRich.score ≤ INT_MAX) ∧
    (1 ≤ (move_head exRich).x ∧ (move_head exRich).x ≤ WIDTH - 2 ∧
      1 ≤ (move_head exRich).y ∧ (move_head exRich).y ≤ HEIGHT - 2) ∧
    exRich.snakeTailLen = 0 ∧
    ((move_head exRich).x = exRich.fruitx ∧ (move_head exRich).y = exRich.fruity) ∧
    logic_int exRich [5, 5] = some (exRichAte, []) ∧
    exRichAte.gameover = false ∧ exRichAte.snakeTailLen = 1 ∧
    exRichAte.score = -2147483646 ∧
    exRichAte.score ≠ exRich.score + 10 :=
  ⟨rfl, by decide, by decide, rfl, ⟨rfl, rfl⟩, rfl, rfl, rfl, rfl, by decide⟩

/-- C5 as amended: growth law.  On a live state whose score is an `int` with
score ≤ INT_MAX - 10 = 2147483637 and whose moved head is strictly inside the
border, on no body cell and on the fruit cell: every returning `logic()` has
added exactly 10 to `score`, has added exactly 1 to `snakeTailLen` if it was
below MAX_TAIL_LEN = 100 and left it unchanged if it was equal to MAX_TAIL_LEN,
and has left `gameover` false; `logic()` does return, with that result, on
every stream of samples holding a candidate that is off the moved head and off
the tail slots below the new length; and such a stream exists when
`snakeTailLen` ≤ MAX_TAIL_LEN. -/
theorem C5_growth_law (s : State) (rs : List Nat) (hg : s.gameover = false)
    (hscore : INT_MIN ≤ s.score ∧ s.score ≤ INT_MAX - 10)
    (hin : 1 ≤ (move_head s).x ∧ (move_head s).x ≤ WIDTH - 2 ∧
      1 ≤ (move_head s).y ∧ (move_head s).y ≤ HEIGHT - 2)
    (hsc : ∀ k : Nat, (k : Int) < s.snakeTailLen →
      ¬(s.snakeTailX k = (move_head s).x ∧ s.snakeTailY k = (move_head s).y))
    (hf : (move_head s).x = s.fruitx ∧ (move_head s).y = s.fruity) :
    (∀ (s1 : State) (rs1 : List Nat), logic_int s rs = some (s1, rs1) →
      s1.score = s.score + 10 ∧
      (s.snakeTailLen < MAX_TAIL_LEN → s1.snakeTailLen = s.snakeTailLen + 1) ∧
      (s.snakeTailLen = MAX_TAIL_LEN → s1.snakeTailLen = s.snakeTailLen) ∧
      s1.gameover = false) ∧
    (∀ n : Nat, 2 * n + 2 ≤ rs.length →
      ¬((candidate rs n).1 = (move_head s).x ∧ (candidate rs n).2 = (move_head s).y) →
      (∀ k : Nat,
        (k : Int) < (if s.snakeTailLen < MAX_TAIL_LEN then s.snakeTailLen + 1
                     else s.snakeTailLen) →
        ¬((candidate rs n).1 = s.snakeTailX k ∧ (candidate rs n).2 = s.snakeTailY k)) →
      ∃ s1 rs1, logic_int s rs = some (s1, rs1) ∧
        s1.score = s.score + 10 ∧
        (s.snakeTailLen < MAX_TAIL_LEN → s1.snakeTailLen = s.snakeTailLen + 1) ∧
        (s.snakeTailLen = MAX_TAIL_LEN → s1.snakeTailLen = s.snakeTailLen) ∧
        s1.gameover = false) ∧
    (s.snakeTailLen ≤ MAX_TAIL_LEN →
      ∃ rs0 s1 rs1, logic_int s rs0 = some (s1, rs1) ∧
        s1.score = s.score + 10 ∧ s1.gameover = false) := by
  obtain ⟨mX, mY, mlen, _, _, mfx, mfy, _⟩ := move_head_frame s
  have hw : wall_collision (move_head s) = false :=
    (wall_collision_eq_false _).mpr hin
  have hs : self_collision (move_head s) = false := by
    rw [self_collision_eq_false, mX, mY, mlen]
    exact hsc
  have hfm : (move_head s).x = (move_head s).fruitx ∧
      (move_head s).y = (move_head s).fruity := by
    rw [mfx, mfy]
    exact hf
  have hpost : ∀ (rs0 : List Nat) (s1 : State) (rs1 : List Nat),
      logic_int s rs0 = some (s1, rs1) →
      s1.score = s.score + 10 ∧
      (s.snakeTailLen < MAX_TAIL_LEN → s1.snakeTailLen = s.snakeTailLen + 1) ∧
      (s.snakeTailLen = MAX_TAIL_LEN → s1.snakeTailLen = s.snakeTailLen) ∧
      s1.gameover = false := by
    intro rs0 s1 rs1 h
    rw [logic_int_eq s rs0 hscore.1 hscore.2] at h
    exact logic_eats_post s rs0 s1 rs1 hg hw hs hf h
  refine ⟨hpost rs, ?_, ?_⟩
  · intro n hn hhead htail
    have hF : Free
        { move_head s with
            score := (move_head s).score + 10,
            snakeTailLen :=
              if (move_head s).snakeTailLen < MAX_TAIL_LEN then
                (move_head s).snakeTailLen + 1
              else (move_head s).snakeTailLen }
        (candidate rs n).1 (candidate rs n).2 := by
      unfold Free
      simp only
      rw [mX, mY, mlen]
      exact ⟨hhead, htail⟩
    obtain ⟨f, rs1, hgf⟩ := generate_fruit_returns_of_free_candidate _ rs n hn hF
    have hl := logic_eats_returns s rs f rs1 hg hw hs hfm hgf
    rw [← logic_int_eq s rs hscore.1 hscore.2] at hl
    exact ⟨_, rs1, hl, hpost rs _ rs1 hl⟩
  · intro hlen
    obtain ⟨rs0, f, rs1, hgf⟩ := generate_fruit_returns_on_some_stream
      { move_head s with
          score := (move_head s).score + 10,
          snakeTailLen :=
            if (move_head s).snakeTailLen < MAX_TAIL_LEN then
              (move_head s).snakeTailLen + 1
            else (move_head s).snakeTailLen }
      (by
        show (if (move_head s).snakeTailLen < MAX_TAIL_LEN then
              (move_head s).snakeTailLen + 1
            else (move_head s).snakeTailLen) ≤ MAX_TAIL_LEN
        rw [mlen]
        split <;> omega)
    have hl := logic_eats_returns s rs0 f rs1 hg hw hs hfm hgf
    rw [← logic_int_eq s rs0 hscore.1 hscore.2] at hl
    obtain ⟨h1, _, _, h4⟩ := hpost rs0 _ rs1 hl
    exact ⟨rs0, _, rs1, hl, h1, h4⟩

/-- C5 as amended, at `exSetup`: the head moves from (20,10) onto the fruit at
(21,10); `logic()` returns on the samples 5, 5 with the score gone from 0 to 10
and the tail length from 0 to 1. -/
theorem C5_growth_law_witness :
    exSetup.gameover = false ∧
    (INT_MIN ≤ exSetup.score ∧ exSetup.score ≤ INT_MAX - 10) ∧
    logic_int exSetup [5, 5] = some (exGrown, []) ∧
    exGrown.score = exSetup.score + 10 ∧
    (exSetup.snakeTailLen < MAX_TAIL_LEN → exGrown.snakeTailLen = exSetup.snakeTailLen + 1) ∧
    (exSetup.snakeTailLen = MAX_TAIL_LEN → exGrown.snakeTailLen = exSetup.snakeTailLen) ∧
    exGrown.gameover = false :=
  ⟨rfl, by decide, rfl,
    (C5_growth_law exSetup [5, 5] rfl (by decide) (by decide)
      (fun k hk => absurd hk (by show ¬((k : Int) < 0); omega)) ⟨rfl, rfl⟩).1
      exGrown [] rfl⟩

end Snake
